import Mathlib

/-!
# Transaction payload builder of `sui-go-sdk` (package `transaction`)

A shallow embedding of `transaction/transaction_data.go`: the tagged-union data
model (Go structs with independently nullable fields), the builder operations
`AddInput`, `AddCommand`, `GetInputObjectIndex`, `GasData.IsAllSet`, and the
canonical binary encoding reached through `TransactionKind.Marshal` and
`TransactionData.Marshal`.

Conventions of the embedding.
* A nullable Go pointer or interface field is an `Option`; `none` is `nil`.
* A Go slice is a `List` (value semantics; aliasing of backing arrays is not
  observable through the operations embedded here).  Slice elements and struct
  fields that are pointers but are only ever written with the address of a
  fresh value (`&input`, `&command`) are embedded by the value pointed to.
* `uint16(n)` is `n % 2 ^ 16` on `Nat`.
* A nil-pointer dereference is the error outcome `GoPanic.nilPointerDereference`.
-/

namespace transaction

/-! ## Primitive types -/

/-- A Go byte slice or byte array, as the sequence of its bytes. -/
abbrev Bytes := List Nat

/-- The Go type `models.SuiAddressBytes`, a fixed-width (32 byte) array. -/
abbrev SuiAddressBytes := Bytes

/-- The Go type `models.ObjectDigestBytes`, a byte slice. -/
abbrev ObjectDigestBytes := Bytes

/-- The Go type `models.SuiAddress`, a string holding a textual address. -/
abbrev SuiAddress := String

/-- A Go `string` that is written to the wire: the sequence of its (UTF-8) bytes. -/
abbrev GoString := Bytes

/-- A Go `bool`. -/
abbrev GoBool := Bool

/-- A Go interface value of type `any`: `none` is the nil interface, `some ()` is
any non-nil dynamic value (its content is never inspected by the embedded code). -/
abbrev GoAny := Option Unit

/-- The conversion `uint16(n)` of a non-negative Go `int`. -/
def uint16 (n : Nat) : Nat := n % 2 ^ 16

/-- Run-time panics of the embedded code. -/
inductive GoPanic where
  | nilPointerDereference
  deriving DecidableEq, Repr

/-! ## Data model (`transaction_data.go`) -/

/-- The Go struct `NestedResult`. -/
structure NestedResult where
  Index : Nat
  ResultIndex : Nat
  deriving DecidableEq, Repr

/-- The Go struct `Argument` (union: GasCoin, Input, Result, NestedResult). -/
structure Argument where
  GasCoin : GoAny
  Input : Option Nat
  Result : Option Nat
  NestedResult : Option NestedResult
  deriving DecidableEq, Repr

/-- The Go struct `SuiObjectRef`. -/
structure SuiObjectRef where
  ObjectId : SuiAddressBytes
  Version : Nat
  Digest : ObjectDigestBytes
  deriving DecidableEq, Repr

/-- The Go struct `SharedObjectRef`. -/
structure SharedObjectRef where
  ObjectId : SuiAddressBytes
  InitialSharedVersion : Nat
  Mutable : GoBool
  deriving DecidableEq, Repr

mutual
/-- The Go struct `TypeTag` (union; the fields are in the order of the source). -/
inductive TypeTag where
  | mk (Bool U8 U128 U256 Address Signer : Option GoBool) (Vector : Option TypeTag)
      (Struct : Option StructTag) (U16 U32 U64 : Option GoBool)
/-- The Go struct `StructTag`. -/
inductive StructTag where
  | mk (Address : SuiAddressBytes) (Module Name : GoString) (TypeParams : List TypeTag)
end

/-- The Go struct `Pure`. -/
structure Pure where
  Bytes : Bytes
  deriving DecidableEq, Repr

/-- The Go struct `UnresolvedPure`. -/
structure UnresolvedPure where
  Value : GoAny
  deriving DecidableEq, Repr

/-- The Go struct `UnresolvedObject`. -/
structure UnresolvedObject where
  ObjectId : SuiAddressBytes
  deriving DecidableEq, Repr

/-- The Go struct `ObjectArg` (union: ImmOrOwnedObject, SharedObject, Receiving). -/
structure ObjectArg where
  ImmOrOwnedObject : Option SuiObjectRef
  SharedObject : Option SharedObjectRef
  Receiving : Option SuiObjectRef
  deriving DecidableEq, Repr

/-- The Go struct `CallArg` (union: Pure, Object, UnresolvedPure, UnresolvedObject). -/
structure CallArg where
  Pure : Option Pure
  Object : Option ObjectArg
  UnresolvedPure : Option UnresolvedPure
  UnresolvedObject : Option UnresolvedObject
  deriving DecidableEq, Repr

/-- The Go struct `ProgrammableMoveCall`. -/
structure ProgrammableMoveCall where
  Package : SuiAddressBytes
  Module : GoString
  Function : GoString
  TypeArguments : List TypeTag
  Arguments : List Argument

/-- The Go struct `TransferObjects`. -/
structure TransferObjects where
  Objects : List Argument
  Address : Argument
  deriving DecidableEq, Repr

/-- The Go struct `SplitCoins`. -/
structure SplitCoins where
  Coin : Argument
  Amount : List Argument
  deriving DecidableEq, Repr

/-- The Go struct `MergeCoins`. -/
structure MergeCoins where
  Destination : Argument
  Sources : List Argument
  deriving DecidableEq, Repr

/-- The Go struct `Publish`. -/
structure Publish where
  Modules : List SuiAddressBytes
  Dependencies : List SuiAddressBytes
  deriving DecidableEq, Repr

/-- The Go struct `MakeMoveVec` (the field `Type` is named `Type_` here). -/
structure MakeMoveVec where
  Type_ : GoString
  Elements : List Argument
  deriving DecidableEq, Repr

/-- The Go struct `Upgrade`. -/
structure Upgrade where
  Modules : List SuiAddressBytes
  Dependencies : List SuiAddressBytes
  Package : SuiAddressBytes
  Ticket : Argument
  deriving DecidableEq, Repr

/-- The Go struct `Command` (union of the seven command kinds). -/
structure Command where
  MoveCall : Option ProgrammableMoveCall
  TransferObjects : Option TransferObjects
  SplitCoins : Option SplitCoins
  MergeCoins : Option MergeCoins
  Publish : Option Publish
  MakeMoveVec : Option MakeMoveVec
  Upgrade : Option Upgrade

/-- The Go struct `ProgrammableTransaction`. -/
structure ProgrammableTransaction where
  Inputs : List CallArg
  Commands : List Command

/-- The Go struct `TransactionKind` (union). -/
structure TransactionKind where
  ProgrammableTransaction : Option ProgrammableTransaction
  ChangeEpoch : GoAny
  Genesis : GoAny
  ConsensusCommitPrologue : GoAny

/-- The Go struct `GasData`. -/
structure GasData where
  Payment : Option (List SuiObjectRef)
  Owner : Option SuiAddressBytes
  Price : Option Nat
  Budget : Option Nat
  deriving DecidableEq, Repr

/-- The Go struct `TransactionExpiration` (union: None, Epoch). -/
structure TransactionExpiration where
  None : GoAny
  Epoch : Option Nat
  deriving DecidableEq, Repr

/-- The Go struct `TransactionDataV1`. -/
structure TransactionDataV1 where
  Kind : Option TransactionKind
  Sender : Option SuiAddressBytes
  GasData : Option GasData
  Expiration : Option TransactionExpiration

/-! ## Builder operations -/

/-- The payload after an assignment through `td.Kind.ProgrammableTransaction`: the
programmable transaction of the kind is replaced, everything else is kept. -/
def withProgrammable (td : TransactionDataV1) (kind : TransactionKind)
    (pt : ProgrammableTransaction) : TransactionDataV1 :=
  let kind1 : TransactionKind := { kind with ProgrammableTransaction := some pt }
  { td with Kind := some kind1 }

/-- The method `(*TransactionDataV1).AddCommand`: the new payload and the returned index. -/
def AddCommand (td : TransactionDataV1) (command : Command) :
    Except GoPanic (TransactionDataV1 × Nat) :=
  match td.Kind with
  | none => .error .nilPointerDereference
  | some kind =>
    match kind.ProgrammableTransaction with
    | none => .error .nilPointerDereference
    | some pt =>
      let index := uint16 pt.Commands.length
      let td1 := withProgrammable td kind { pt with Commands := pt.Commands ++ [command] }
      Except.ok (td1, index)

/-- The method `(*TransactionDataV1).AddInput`: the new payload and the returned argument. -/
def AddInput (td : TransactionDataV1) (input : CallArg) :
    Except GoPanic (TransactionDataV1 × Argument) :=
  match td.Kind with
  | none => .error .nilPointerDereference
  | some kind =>
    match kind.ProgrammableTransaction with
    | none => .error .nilPointerDereference
    | some pt =>
      let index := uint16 pt.Inputs.length
      let td1 := withProgrammable td kind { pt with Inputs := pt.Inputs ++ [input] }
      Except.ok (td1,
        { GasCoin := none, Input := some index, Result := none, NestedResult := none })

/-- Modelled from the spec: the method `models.SuiAddressBytes.IsEqual` is not part of
the source at hand; the spec describes the lookup as matching an input whose object id
equals the address, so the method is equality of the two byte sequences. -/
def IsEqual (objectId addressBytes : SuiAddressBytes) : Bool :=
  decide (objectId = addressBytes)

/-- The loop of `GetInputObjectIndex` over the inputs that remain, `i` being the loop
index of the first of them. -/
def scanInputs (addressBytes : SuiAddressBytes) : List CallArg → Nat → Option Nat
  | [], _ => none
  | input :: rest, i =>
    match input.Object with
    | none => scanInputs addressBytes rest (i + 1)
    | some object =>
      if (match object.ImmOrOwnedObject with
          | some ref => IsEqual ref.ObjectId addressBytes
          | none => false) then some (uint16 i)
      else if (match object.SharedObject with
          | some ref => IsEqual ref.ObjectId addressBytes
          | none => false) then some (uint16 i)
      else if (match object.Receiving with
          | some ref => IsEqual ref.ObjectId addressBytes
          | none => false) then some (uint16 i)
      else scanInputs addressBytes rest (i + 1)

/-- The method `(*TransactionDataV1).GetInputObjectIndex`.  The collaborator
`ConvertSuiAddressStringToBytes` (a fallible pure function that is not part of the source
at hand) is the parameter `convert`; `none` is its error result.  The inner `Option` is the
returned `*uint16`. -/
def GetInputObjectIndex (convert : SuiAddress → Option SuiAddressBytes)
    (td : TransactionDataV1) (address : SuiAddress) : Except GoPanic (Option Nat) :=
  match convert address with
  | none => .ok none
  | some addressBytes =>
    match td.Kind with
    | none => .error .nilPointerDereference
    | some kind =>
      match kind.ProgrammableTransaction with
      | none => .error .nilPointerDereference
      | some pt => .ok (scanInputs addressBytes pt.Inputs 0)

/-- The method `(*GasData).IsAllSet`. -/
def GasData.IsAllSet (gd : GasData) : Bool :=
  if gd.Payment.isNone || gd.Owner.isNone || gd.Price.isNone || gd.Budget.isNone then
    false
  else
    true

/-! ## Sequences of builder calls -/

/-- One call on the builder payload. -/
inductive Op where
  | addInput (input : CallArg)
  | addCommand (command : Command)
  | getInputObjectIndex (address : SuiAddress)

/-- What a call returns. -/
inductive Ret where
  | argument (a : Argument)
  | index (i : Nat)
  | lookup (r : Option Nat)

/-- Perform one call: the payload afterwards and the returned value. -/
def step (convert : SuiAddress → Option SuiAddressBytes) (td : TransactionDataV1) :
    Op → Except GoPanic (TransactionDataV1 × Ret)
  | .addInput input =>
    match AddInput td input with
    | .error e => .error e
    | .ok (td1, a) => .ok (td1, .argument a)
  | .addCommand command =>
    match AddCommand td command with
    | .error e => .error e
    | .ok (td1, i) => .ok (td1, .index i)
  | .getInputObjectIndex address =>
    match GetInputObjectIndex convert td address with
    | .error e => .error e
    | .ok r => .ok (td, .lookup r)

/-- Perform a sequence of calls in order: the final payload and the returned values. -/
def run (convert : SuiAddress → Option SuiAddressBytes) :
    TransactionDataV1 → List Op → Except GoPanic (TransactionDataV1 × List Ret)
  | td, [] => .ok (td, [])
  | td, op :: ops =>
    match step convert td op with
    | .error e => .error e
    | .ok (td1, r) =>
      match run convert td1 ops with
      | .error e => .error e
      | .ok (td2, rs) => .ok (td2, r :: rs)

/-- The arguments returned by the `AddInput` calls of a sequence, in call order. -/
def inputReturns : List Ret → List Argument
  | [] => []
  | .argument a :: rs => a :: inputReturns rs
  | _ :: rs => inputReturns rs

/-- The `Inputs` of a payload (empty when the kind is not a programmable transaction). -/
def TransactionDataV1.inputs (td : TransactionDataV1) : List CallArg :=
  match td.Kind with
  | none => []
  | some kind =>
    match kind.ProgrammableTransaction with
    | none => []
    | some pt => pt.Inputs

/-- The `Commands` of a payload (empty when the kind is not a programmable transaction). -/
def TransactionDataV1.commands (td : TransactionDataV1) : List Command :=
  match td.Kind with
  | none => []
  | some kind =>
    match kind.ProgrammableTransaction with
    | none => []
    | some pt => pt.Commands

/-- The argument `Argument{Input: &i}`. -/
def Argument.ofInput (i : Nat) : Argument :=
  { GasCoin := none, Input := some i, Result := none, NestedResult := none }

/-- The argument `Argument{Result: &k}`. -/
def Argument.ofResult (k : Nat) : Argument :=
  { GasCoin := none, Input := none, Result := some k, NestedResult := none }

/-- The argument `Argument{NestedResult: &NestedResult{k, j}}`. -/
def Argument.ofNestedResult (k j : Nat) : Argument :=
  { GasCoin := none, Input := none, Result := none,
    NestedResult := some { Index := k, ResultIndex := j } }

/-- The argument `Argument{GasCoin: v}` for a non-nil `v`. -/
def Argument.gasCoin : Argument :=
  { GasCoin := some (), Input := none, Result := none, NestedResult := none }

/-- The claim's words "an Object case whose ImmOrOwnedObject, SharedObject or Receiving
object id equals the address bytes", as a predicate on one input. -/
def referencesObject (addressBytes : SuiAddressBytes) (input : CallArg) : Bool :=
  match input.Object with
  | none => false
  | some object =>
    (match object.ImmOrOwnedObject with
      | some ref => decide (ref.ObjectId = addressBytes)
      | none => false) ||
    (match object.SharedObject with
      | some ref => decide (ref.ObjectId = addressBytes)
      | none => false) ||
    (match object.Receiving with
      | some ref => decide (ref.ObjectId = addressBytes)
      | none => false)

/-! ## Canonical codec

The encoder package `mystenbcs`, which `Marshal` calls, is not part of the source at hand.
It is modelled from the rules of the spec (section 4.2); `none` is its `EncodingError`. -/

/-- Modelled from the spec: `mystenbcs` is missing; "a minimal unsigned variable-length
integer" is ULEB128, seven bits per byte, least significant group first, the high bit set
on every byte but the last.  The first argument bounds the number of bytes. -/
def uleb128Aux : Nat → Nat → Bytes
  | 0, n => [n % 128]
  | fuel + 1, n => if n < 128 then [n] else (n % 128 + 128) :: uleb128Aux fuel (n / 128)

/-- Modelled from the spec: `mystenbcs` is missing; the variable-length integer of `n`. -/
def ULEB128Encode (n : Nat) : Bytes := uleb128Aux n n

/-- Modelled from the spec: `mystenbcs` is missing; "Fixed-width integers: little-endian,
at their declared bit width", here `w` bytes wide. -/
def littleEndian : Nat → Nat → Bytes
  | 0, _ => []
  | w + 1, n => (n % 256) :: littleEndian w (n / 256)

/-- Modelled from the spec: `mystenbcs` is missing; "Byte/string payloads: length-prefixed
raw bytes". -/
def encodeBytes (bs : Bytes) : Bytes := ULEB128Encode bs.length ++ bs

/-- Modelled from the spec: `mystenbcs` is missing; the elements of a sequence "in order,
no separators". -/
def encodeElems {α : Type} (enc : α → Option Bytes) : List α → Option Bytes
  | [] => some []
  | x :: xs => (enc x).bind (fun a => (encodeElems enc xs).map (fun b => a ++ b))

/-- Modelled from the spec: `mystenbcs` is missing; "Ordered sequences: length as a
variable-length unsigned integer, then elements in order". -/
def encodeSeq {α : Type} (enc : α → Option Bytes) (xs : List α) : Option Bytes :=
  (encodeElems enc xs).map (fun b => ULEB128Encode xs.length ++ b)

/-- Modelled from the spec: `mystenbcs` is missing; the populated cases of a union, each with
its declaration index; a case is given as `none` when its field is nil and as its encoded
payload otherwise. -/
def populated : Nat → List (Option (Option Bytes)) → List (Nat × Option Bytes)
  | _, [] => []
  | i, none :: cs => populated (i + 1) cs
  | i, some p :: cs => (i, p) :: populated (i + 1) cs

/-- Modelled from the spec: `mystenbcs` is missing; "Union: emit the case's fixed protocol
index as a minimal unsigned variable-length integer, then the case payload (if any)", and
an `EncodingError` "if a union has zero or more than one populated case". -/
def encodeUnion (cases : List (Option (Option Bytes))) : Option Bytes :=
  match populated 0 cases with
  | [(i, payload)] => payload.map (fun b => ULEB128Encode i ++ b)
  | _ => none

/-- Modelled from the spec: `mystenbcs` is missing; a case that carries no data,
present or absent, with an empty payload. -/
def unitCase {α : Type} (field : Option α) : Option (Option Bytes) :=
  field.map (fun _ => some [])

/-- Modelled from the spec: `mystenbcs` is missing; the encoding of an `Argument`
(union; `Input` and `Result` are 16-bit indices). -/
def encodeArgument (a : Argument) : Option Bytes :=
  encodeUnion
    [ unitCase a.GasCoin,
      a.Input.map (fun i => some (littleEndian 2 i)),
      a.Result.map (fun k => some (littleEndian 2 k)),
      a.NestedResult.map (fun n =>
        some (littleEndian 2 n.Index ++ littleEndian 2 n.ResultIndex)) ]

/-- Modelled from the spec: `mystenbcs` is missing; the encoding of a `SuiObjectRef`
(struct: fields in declared order). -/
def encodeSuiObjectRef (r : SuiObjectRef) : Option Bytes :=
  some (r.ObjectId ++ littleEndian 8 r.Version ++ encodeBytes r.Digest)

/-- Modelled from the spec: `mystenbcs` is missing; the encoding of a `SharedObjectRef`
(struct: fields in declared order). -/
def encodeSharedObjectRef (r : SharedObjectRef) : Option Bytes :=
  some (r.ObjectId ++ littleEndian 8 r.InitialSharedVersion ++ [if r.Mutable then 1 else 0])

/-- Modelled from the spec: `mystenbcs` is missing; the encoding of an `ObjectArg` (union). -/
def encodeObjectArg (o : ObjectArg) : Option Bytes :=
  encodeUnion
    [ o.ImmOrOwnedObject.map encodeSuiObjectRef,
      o.SharedObject.map encodeSharedObjectRef,
      o.Receiving.map encodeSuiObjectRef ]

/-- Modelled from the spec: `mystenbcs` is missing; the encoding of a `CallArg` (union).
The spec gives no payload for the `UnresolvedPure` case; the `UnresolvedObject` struct has
the one field `ObjectId`. -/
def encodeCallArg (c : CallArg) : Option Bytes :=
  encodeUnion
    [ c.Pure.map (fun p => some (encodeBytes p.Bytes)),
      c.Object.map encodeObjectArg,
      unitCase c.UnresolvedPure,
      c.UnresolvedObject.map (fun u => some u.ObjectId) ]

mutual
/-- Modelled from the spec: `mystenbcs` is missing; the encoding of a `TypeTag`
(recursive union, cases in the declaration order of the source; the scalar markers carry
no data). -/
def encodeTypeTag : TypeTag → Option Bytes
  | .mk b u8 u128 u256 address signer vector struct u16 u32 u64 =>
    encodeUnion
      [ unitCase b, unitCase u8, unitCase u128, unitCase u256, unitCase address,
        unitCase signer, encodeVectorCase vector, encodeStructCase struct,
        unitCase u16, unitCase u32, unitCase u64 ]
/-- Modelled from the spec: `mystenbcs` is missing; the `Vector` case of a `TypeTag`. -/
def encodeVectorCase : Option TypeTag → Option (Option Bytes)
  | none => none
  | some t => some (encodeTypeTag t)
/-- Modelled from the spec: `mystenbcs` is missing; the `Struct` case of a `TypeTag`. -/
def encodeStructCase : Option StructTag → Option (Option Bytes)
  | none => none
  | some s => some (encodeStructTag s)
/-- Modelled from the spec: `mystenbcs` is missing; the encoding of a `StructTag`
(struct: fields in declared order). -/
def encodeStructTag : StructTag → Option Bytes
  | .mk address module name typeParams =>
    match encodeTypeTags typeParams with
    | some ps =>
      some (address ++ encodeBytes module ++ encodeBytes name ++
        ULEB128Encode typeParams.length ++ ps)
    | none => none
/-- Modelled from the spec: `mystenbcs` is missing; the elements of a sequence of
`TypeTag`s, in order. -/
def encodeTypeTags : List TypeTag → Option Bytes
  | [] => some []
  | t :: ts =>
    match encodeTypeTag t, encodeTypeTags ts with
    | some a, some b => some (a ++ b)
    | _, _ => none
end

/-- Modelled from the spec: `mystenbcs` is missing; "Structs: fields in declared order,
untagged". -/
def encodeFields : List (Option Bytes) → Option Bytes
  | [] => some []
  | f :: fs => f.bind (fun a => (encodeFields fs).map (fun b => a ++ b))

/-- Modelled from the spec: `mystenbcs` is missing; the encoding of a
`ProgrammableMoveCall` (struct). -/
def encodeProgrammableMoveCall (m : ProgrammableMoveCall) : Option Bytes :=
  encodeFields
    [ some m.Package, some (encodeBytes m.Module), some (encodeBytes m.Function),
      (encodeTypeTags m.TypeArguments).map (fun b => ULEB128Encode m.TypeArguments.length ++ b),
      encodeSeq encodeArgument m.Arguments ]

/-- Modelled from the spec: `mystenbcs` is missing; the encoding of a
`TransferObjects` (struct). -/
def encodeTransferObjects (t : TransferObjects) : Option Bytes :=
  encodeFields [ encodeSeq encodeArgument t.Objects, encodeArgument t.Address ]

/-- Modelled from the spec: `mystenbcs` is missing; the encoding of a
`SplitCoins` (struct). -/
def encodeSplitCoins (c : SplitCoins) : Option Bytes :=
  encodeFields [ encodeArgument c.Coin, encodeSeq encodeArgument c.Amount ]

/-- Modelled from the spec: `mystenbcs` is missing; the encoding of a
`MergeCoins` (struct). -/
def encodeMergeCoins (c : MergeCoins) : Option Bytes :=
  encodeFields [ encodeArgument c.Destination, encodeSeq encodeArgument c.Sources ]

/-- Modelled from the spec: `mystenbcs` is missing; the encoding of a `Publish`
(struct; its elements are fixed-width byte arrays). -/
def encodePublish (c : Publish) : Option Bytes :=
  encodeFields [ encodeSeq some c.Modules, encodeSeq some c.Dependencies ]

/-- Modelled from the spec: `mystenbcs` is missing; the encoding of a
`MakeMoveVec` (struct). -/
def encodeMakeMoveVec (c : MakeMoveVec) : Option Bytes :=
  encodeFields [ some (encodeBytes c.Type_), encodeSeq encodeArgument c.Elements ]

/-- Modelled from the spec: `mystenbcs` is missing; the encoding of an `Upgrade`
(struct). -/
def encodeUpgrade (c : Upgrade) : Option Bytes :=
  encodeFields
    [ encodeSeq some c.Modules, encodeSeq some c.Dependencies, some c.Package,
      encodeArgument c.Ticket ]

/-- Modelled from the spec: `mystenbcs` is missing; the encoding of a `Command`
(union of the seven command kinds, in declared order). -/
def encodeCommand (c : Command) : Option Bytes :=
  encodeUnion
    [ c.MoveCall.map encodeProgrammableMoveCall,
      c.TransferObjects.map encodeTransferObjects,
      c.SplitCoins.map encodeSplitCoins,
      c.MergeCoins.map encodeMergeCoins,
      c.Publish.map encodePublish,
      c.MakeMoveVec.map encodeMakeMoveVec,
      c.Upgrade.map encodeUpgrade ]

/-- Modelled from the spec: `mystenbcs` is missing; the encoding of a
`ProgrammableTransaction` (struct: `Inputs`, then `Commands`). -/
def encodeProgrammableTransaction (pt : ProgrammableTransaction) : Option Bytes :=
  encodeFields [ encodeSeq encodeCallArg pt.Inputs, encodeSeq encodeCommand pt.Commands ]

/-- Modelled from the spec: `mystenbcs` is missing; the encoding of a `TransactionKind`
(union; only the first case carries data). -/
def encodeTransactionKind (tk : TransactionKind) : Option Bytes :=
  encodeUnion
    [ tk.ProgrammableTransaction.map encodeProgrammableTransaction,
      unitCase tk.ChangeEpoch, unitCase tk.Genesis, unitCase tk.ConsensusCommitPrologue ]

/-- The method `(*TransactionKind).Marshal`: the bytes written by the encoder, or its
error. -/
def TransactionKind.Marshal (tk : TransactionKind) : Option Bytes :=
  encodeTransactionKind tk

/-- The arguments a command holds, over all of its populated cases. -/
def Command.arguments (c : Command) : List Argument :=
  (match c.MoveCall with | some m => m.Arguments | none => []) ++
  (match c.TransferObjects with | some t => t.Objects ++ [t.Address] | none => []) ++
  (match c.SplitCoins with | some s => s.Coin :: s.Amount | none => []) ++
  (match c.MergeCoins with | some m => m.Destination :: m.Sources | none => []) ++
  (match c.MakeMoveVec with | some m => m.Elements | none => []) ++
  (match c.Upgrade with | some u => [u.Ticket] | none => [])

/-! ## Base64 rendering of the built bytes -/

/-- The alphabet of the standard base64 encoding. -/
def base64Alphabet : List Char :=
  "ABCDEFGHIJKLMNOPQRSTUVWXYZabcdefghijklmnopqrstuvwxyz0123456789+/".toList

/-- The base64 digit of a 6-bit value. -/
def base64Digit (n : Nat) : Char := base64Alphabet.getD n '='

/-- Modelled from the spec: the `build` method that renders the marshalled bytes is
missing; the "optionally base64-rendered" output is the standard padded base64 encoding,
in which the tests state the expected bytes. -/
def base64Encode : Bytes → List Char
  | [] => []
  | [a] => [base64Digit (a / 4), base64Digit (a % 4 * 16), '=', '=']
  | [a, b] =>
    [base64Digit (a / 4), base64Digit (a % 4 * 16 + b / 16), base64Digit (b % 16 * 4), '=']
  | a :: b :: c :: rest =>
    base64Digit (a / 4) :: base64Digit (a % 4 * 16 + b / 16) ::
      base64Digit (b % 16 * 4 + c / 64) :: base64Digit (c % 64) :: base64Encode rest

/-- The payload kind `ProgrammableTransaction` with no inputs and no commands. -/
def emptyProgrammableKind : TransactionKind :=
  { ProgrammableTransaction := some { Inputs := [], Commands := [] },
    ChangeEpoch := none, Genesis := none, ConsensusCommitPrologue := none }

/-- The kind built by the test case "tx transfer using gas": two pure inputs, a
`SplitCoins` of the gas coin and a `TransferObjects` of its result. -/
def transferUsingGasKind : TransactionKind :=
  { ProgrammableTransaction := some
      { Inputs :=
          [ { Pure := some { Bytes := [0x00, 0xe1, 0xf5, 0x05, 0, 0, 0, 0] }, Object := none,
              UnresolvedPure := none, UnresolvedObject := none },
            { Pure := some { Bytes := List.replicate 31 0 ++ [9] }, Object := none,
              UnresolvedPure := none, UnresolvedObject := none } ],
        Commands :=
          [ { MoveCall := none, TransferObjects := none,
              SplitCoins := some { Coin := Argument.gasCoin, Amount := [Argument.ofInput 0] },
              MergeCoins := none, Publish := none, MakeMoveVec := none, Upgrade := none },
            { MoveCall := none,
              TransferObjects := some
                { Objects := [Argument.ofResult 0], Address := Argument.ofInput 1 },
              SplitCoins := none, MergeCoins := none, Publish := none, MakeMoveVec := none,
              Upgrade := none } ] },
    ChangeEpoch := none, Genesis := none, ConsensusCommitPrologue := none }

/-- A payload whose kind is a programmable transaction with the given inputs and
commands; sender, gas data and expiration are unset. -/
def payloadOf (inputs : List CallArg) (commands : List Command) : TransactionDataV1 :=
  { Kind := some
      { ProgrammableTransaction := some { Inputs := inputs, Commands := commands },
        ChangeEpoch := none, Genesis := none, ConsensusCommitPrologue := none },
    Sender := none, GasData := none, Expiration := none }

/-- A `Pure` input with the given bytes. -/
def pureInput (bs : Bytes) : CallArg :=
  { Pure := some { Bytes := bs }, Object := none, UnresolvedPure := none,
    UnresolvedObject := none }

/-- An `Object` input, owned or immutable, with the given object id. -/
def ownedObjectInput (objectId : SuiAddressBytes) : CallArg :=
  { Pure := none,
    Object := some
      { ImmOrOwnedObject := some { ObjectId := objectId, Version := 1, Digest := [] },
        SharedObject := none, Receiving := none },
    UnresolvedPure := none, UnresolvedObject := none }

/-- An `Object` input, shared, with the given object id. -/
def sharedObjectInput (objectId : SuiAddressBytes) : CallArg :=
  { Pure := none,
    Object := some
      { ImmOrOwnedObject := none,
        SharedObject := some
          { ObjectId := objectId, InitialSharedVersion := 1, Mutable := true },
        Receiving := none },
    UnresolvedPure := none, UnresolvedObject := none }

/-- An `UnresolvedObject` input with the given object id. -/
def unresolvedObjectInput (objectId : SuiAddressBytes) : CallArg :=
  { Pure := none, Object := none, UnresolvedPure := none,
    UnresolvedObject := some { ObjectId := objectId } }

/-- A `MergeCoins` command. -/
def mergeCoinsCommand (destination : Argument) (sources : List Argument) : Command :=
  { MoveCall := none, TransferObjects := none, SplitCoins := none,
    MergeCoins := some { Destination := destination, Sources := sources },
    Publish := none, MakeMoveVec := none, Upgrade := none }

/-- A `SplitCoins` command. -/
def splitCoinsCommand (coin : Argument) (amount : List Argument) : Command :=
  { MoveCall := none, TransferObjects := none,
    SplitCoins := some { Coin := coin, Amount := amount },
    MergeCoins := none, Publish := none, MakeMoveVec := none, Upgrade := none }

/-- A `TransferObjects` command. -/
def transferObjectsCommand (objects : List Argument) (address : Argument) : Command :=
  { MoveCall := none,
    TransferObjects := some { Objects := objects, Address := address },
    SplitCoins := none, MergeCoins := none, Publish := none, MakeMoveVec := none,
    Upgrade := none }

/-- The inputs that a sequence of calls appends, in call order. -/
def addedInputs : List Op → List CallArg
  | [] => []
  | .addInput x :: ops => x :: addedInputs ops
  | _ :: ops => addedInputs ops

/-- The commands that a sequence of calls appends, in call order. -/
def addedCommands : List Op → List Command
  | [] => []
  | .addCommand c :: ops => c :: addedCommands ops
  | _ :: ops => addedCommands ops

/-! ## The full payload and its encoding -/

/-- The Go struct `TransactionData` (union with the one case `V1`). -/
structure TransactionData where
  V1 : Option TransactionDataV1

/-- Modelled from the spec: `mystenbcs` is missing; the encoding of a `GasData` (struct:
payment sequence, owner, price and budget as 64-bit integers).  A nil field has no
encoding. -/
def encodeGasData (gd : GasData) : Option Bytes :=
  encodeFields
    [ gd.Payment.bind (fun refs => encodeSeq encodeSuiObjectRef refs),
      gd.Owner,
      gd.Price.map (littleEndian 8),
      gd.Budget.map (littleEndian 8) ]

/-- Modelled from the spec: `mystenbcs` is missing; the encoding of a
`TransactionExpiration` (union: `None` carries no data, `Epoch` a 64-bit integer). -/
def encodeTransactionExpiration (x : TransactionExpiration) : Option Bytes :=
  encodeUnion [ unitCase x.None, x.Epoch.map (fun e => some (littleEndian 8 e)) ]

/-- Modelled from the spec: `mystenbcs` is missing; the `Expiration` field of the payload,
tagged `bcs:"optional"`: "Optional field: one presence byte (0 = absent, 1 = present)
followed by the payload if present", the payload being the union encoding of the
`TransactionExpiration`. -/
def encodeExpirationField : Option TransactionExpiration → Option Bytes
  | none => some [0]
  | some x => (encodeTransactionExpiration x).map (fun b => 1 :: b)

/-- Modelled from the spec: `mystenbcs` is missing; the encoding of a `TransactionDataV1`
(struct: kind, sender, gas data, expiration).  A nil kind, sender or gas data has no
encoding. -/
def encodeTransactionDataV1 (td : TransactionDataV1) : Option Bytes :=
  encodeFields
    [ td.Kind.bind encodeTransactionKind,
      td.Sender,
      td.GasData.bind encodeGasData,
      encodeExpirationField td.Expiration ]

/-- Modelled from the spec: `mystenbcs` is missing; the encoding of a `TransactionData`
(union with the one case `V1`). -/
def encodeTransactionData (td : TransactionData) : Option Bytes :=
  encodeUnion [ td.V1.map encodeTransactionDataV1 ]

/-- Modelled from the spec: `mystenbcs` is missing; the method `Encoder.Encode` on an
encoder that writes to a buffer holding `buffer`: the buffer afterwards, or the error. -/
def Encoder.Encode (buffer : Bytes) (td : TransactionData) : Option Bytes :=
  (encodeTransactionData td).map (fun b => buffer ++ b)

/-- The method `(*TransactionData).Marshal`: a new empty buffer, an encoder on it, and the
bytes of the buffer after encoding, or the encoder's error. -/
def TransactionData.Marshal (td : TransactionData) : Option Bytes :=
  match Encoder.Encode [] td with
  | none => none
  | some bcsEncodedMsg => some bcsEncodedMsg

/-- The object reference that the tests use as gas payment (`generateObjectRef`). -/
def generateObjectRef : SuiObjectRef :=
  { ObjectId := (List.replicate 10 [0x61, 0x62, 0x63]).flatten ++ [0x61, 0x62],
    Version := 2,
    Digest := (List.replicate 3 [0, 1, 2, 3, 4, 5, 6, 7, 8, 9]).flatten ++ [1, 2] }

/-- The payload of the test helper `setupTransaction`: an empty programmable transaction,
sender 0x2, gas price 5, gas budget 100, one payment object, gas owner 0x6; with the given
expiration. -/
def setupTransaction (expiration : Option TransactionExpiration) : TransactionData :=
  { V1 := some
      { Kind := some emptyProgrammableKind,
        Sender := some (List.replicate 31 0 ++ [2]),
        GasData := some
          { Payment := some [generateObjectRef],
            Owner := some (List.replicate 31 0 ++ [6]),
            Price := some 5,
            Budget := some 100 },
        Expiration := expiration } }

/-- The expiration `TransactionExpiration{Epoch: &e}`. -/
def TransactionExpiration.ofEpoch (e : Nat) : TransactionExpiration :=
  { None := none, Epoch := some e }

/-- The payload with its `Expiration` field set to the given value (`SetExpiration`). -/
def TransactionData.withExpiration (td : TransactionData)
    (expiration : Option TransactionExpiration) : TransactionData :=
  { V1 := td.V1.map (fun v1 => { v1 with Expiration := expiration }) }

/-- The number that a sequence of bytes stands for, least significant byte first. -/
def fromLittleEndian : Bytes → Nat
  | [] => 0
  | b :: bs => b + 256 * fromLittleEndian bs

/-! ## The declaration order of the `TypeTag` cases -/

/-- The names of the cases of `TypeTag`. -/
inductive TypeTagCase where
  | Bool | U8 | U16 | U32 | U64 | U128 | U256 | Address | Signer | Vector | Struct
  deriving DecidableEq, Repr

/-- The fields of the Go struct `TypeTag`, in the order of their declaration. -/
def TypeTag.declaredCases : List TypeTagCase :=
  [ .Bool, .U8, .U128, .U256, .Address, .Signer, .Vector, .Struct, .U16, .U32, .U64 ]

/-- The variant index of a case of `TypeTag`: its position in the declaration. -/
def TypeTag.declaredIndex (c : TypeTagCase) : Nat :=
  TypeTag.declaredCases.indexOf c

/-- The claim's words: the index of each case in the Move `TypeTag` enum that the comment
on the Go struct cites. -/
def moveTypeTagIndex : TypeTagCase → Nat
  | .Bool => 0
  | .U8 => 1
  | .U64 => 2
  | .U128 => 3
  | .Address => 4
  | .Signer => 5
  | .Vector => 6
  | .Struct => 7
  | .U16 => 8
  | .U32 => 9
  | .U256 => 10

/-- A field of `TypeTag` holding a pointer to `true` when the case is `c`, nil otherwise. -/
def markerField (c d : TypeTagCase) : Option GoBool :=
  if c = d then some true else none

/-- The `TypeTag` with the one scalar case `c` populated, such as `TypeTag{U64: &true}`
(no case is populated for `Vector` and `Struct`, which carry data). -/
def scalarTypeTag (c : TypeTagCase) : TypeTag :=
  .mk (markerField c .Bool) (markerField c .U8) (markerField c .U128) (markerField c .U256)
    (markerField c .Address) (markerField c .Signer) none none (markerField c .U16)
    (markerField c .U32) (markerField c .U64)

/-! ## References between commands -/

/-- The command positions an argument refers to: `k` for `Result(k)` and for
`NestedResult(k, _)`. -/
def Argument.references (a : Argument) : List Nat :=
  a.Result.toList ++ (a.NestedResult.map (fun n => n.Index)).toList

/-- The command positions that the arguments of a command refer to. -/
def Command.references (c : Command) : List Nat :=
  (c.arguments.map Argument.references).flatten

/-- Every command that the calls add refers only to commands that are present when it is
added; `m` is the number of commands present before the first call. -/
def chained : Nat → List Op → Bool
  | _, [] => true
  | m, .addCommand c :: ops => c.references.all (fun k => decide (k < m)) && chained (m + 1) ops
  | m, _ :: ops => chained m ops

/-! ## Basic facts about the builder operations -/

theorem uint16_of_lt {n : Nat} (h : n < 2 ^ 16) : uint16 n = n := by
  unfold uint16
  exact Nat.mod_eq_of_lt h

theorem AddInput_ok (td : TransactionDataV1) (kind : TransactionKind)
    (pt : ProgrammableTransaction) (x : CallArg) (hk : td.Kind = some kind)
    (hp : kind.ProgrammableTransaction = some pt) :
    AddInput td x = Except.ok
      (withProgrammable td kind { pt with Inputs := pt.Inputs ++ [x] },
        Argument.ofInput (uint16 pt.Inputs.length)) := by
  simp [AddInput, hk, hp, Argument.ofInput]

theorem AddCommand_ok (td : TransactionDataV1) (kind : TransactionKind)
    (pt : ProgrammableTransaction) (c : Command) (hk : td.Kind = some kind)
    (hp : kind.ProgrammableTransaction = some pt) :
    AddCommand td c = Except.ok
      (withProgrammable td kind { pt with Commands := pt.Commands ++ [c] },
        uint16 pt.Commands.length) := by
  simp [AddCommand, hk, hp]

@[simp] theorem withProgrammable_inputs (td : TransactionDataV1) (kind : TransactionKind)
    (pt : ProgrammableTransaction) : (withProgrammable td kind pt).inputs = pt.Inputs := by
  simp [withProgrammable, TransactionDataV1.inputs]

@[simp] theorem withProgrammable_commands (td : TransactionDataV1) (kind : TransactionKind)
    (pt : ProgrammableTransaction) : (withProgrammable td kind pt).commands = pt.Commands := by
  simp [withProgrammable, TransactionDataV1.commands]

theorem inputs_of_kind (td : TransactionDataV1) (kind : TransactionKind)
    (pt : ProgrammableTransaction) (hk : td.Kind = some kind)
    (hp : kind.ProgrammableTransaction = some pt) : td.inputs = pt.Inputs := by
  simp [TransactionDataV1.inputs, hk, hp]

theorem commands_of_kind (td : TransactionDataV1) (kind : TransactionKind)
    (pt : ProgrammableTransaction) (hk : td.Kind = some kind)
    (hp : kind.ProgrammableTransaction = some pt) : td.commands = pt.Commands := by
  simp [TransactionDataV1.commands, hk, hp]

theorem AddInput_payloadOf (inputs : List CallArg) (commands : List Command) (x : CallArg) :
    AddInput (payloadOf inputs commands) x =
      Except.ok (payloadOf (inputs ++ [x]) commands, Argument.ofInput (uint16 inputs.length)) :=
  rfl

theorem AddCommand_payloadOf (inputs : List CallArg) (commands : List Command) (c : Command) :
    AddCommand (payloadOf inputs commands) c =
      Except.ok (payloadOf inputs (commands ++ [c]), uint16 commands.length) :=
  rfl

/-! ## The lookup loop -/

theorem scanInputs_cons_of_ref (a : SuiAddressBytes) (c : CallArg) (rest : List CallArg)
    (i : Nat) (h : referencesObject a c = true) :
    scanInputs a (c :: rest) i = some (uint16 i) := by
  obtain ⟨p, o, up, uo⟩ := c
  cases o with
  | none => simp [referencesObject] at h
  | some obj =>
    obtain ⟨imm, sh, rc⟩ := obj
    cases imm <;> cases sh <;> cases rc <;>
      simp [referencesObject] at h <;>
      simp [scanInputs, IsEqual] <;> tauto

theorem scanInputs_cons_of_not (a : SuiAddressBytes) (c : CallArg) (rest : List CallArg)
    (i : Nat) (h : referencesObject a c = false) :
    scanInputs a (c :: rest) i = scanInputs a rest (i + 1) := by
  obtain ⟨p, o, up, uo⟩ := c
  cases o with
  | none => simp [scanInputs]
  | some obj =>
    obtain ⟨imm, sh, rc⟩ := obj
    cases imm <;> cases sh <;> cases rc <;>
      simp_all [referencesObject, scanInputs, IsEqual]

theorem scanInputs_of_none (a : SuiAddressBytes) (inputs : List CallArg) (i : Nat)
    (h : ∀ c ∈ inputs, referencesObject a c = false) : scanInputs a inputs i = none := by
  induction inputs generalizing i with
  | nil => rfl
  | cons c rest ih =>
    rw [scanInputs_cons_of_not a c rest i (h c (List.mem_cons_self c rest))]
    exact ih (i + 1) (fun d hd => h d (List.mem_cons_of_mem c hd))

theorem scanInputs_append (a : SuiAddressBytes) (before after : List CallArg) (i : Nat)
    (h : ∀ c ∈ before, referencesObject a c = false) :
    scanInputs a (before ++ after) i = scanInputs a after (i + before.length) := by
  induction before generalizing i with
  | nil => simp
  | cons c rest ih =>
    rw [List.cons_append, scanInputs_cons_of_not a c _ i (h c (List.mem_cons_self c rest)),
      ih (i + 1) (fun d hd => h d (List.mem_cons_of_mem c hd)), List.length_cons]
    congr 1
    omega

/-- The lookup on an input list with a first referencing input: the inputs split at that
input, and the result is its position, converted to `uint16`. -/
theorem scanInputs_first (a : SuiAddressBytes) (inputs : List CallArg)
    (h : ∃ c ∈ inputs, referencesObject a c = true) :
    ∃ (before : List CallArg) (c : CallArg) (after : List CallArg),
      inputs = before ++ c :: after ∧ referencesObject a c = true ∧
      (∀ d ∈ before, referencesObject a d = false) ∧
      scanInputs a inputs 0 = some (uint16 before.length) := by
  induction inputs with
  | nil => simp at h
  | cons x rest ih =>
    cases hx : referencesObject a x with
    | true =>
      exact ⟨[], x, rest, rfl, hx, by simp, scanInputs_cons_of_ref a x rest 0 hx⟩
    | false =>
      have h1 : ∃ c ∈ rest, referencesObject a c = true := by
        obtain ⟨c, hc, hr⟩ := h
        rcases List.mem_cons.mp hc with rfl | hc1
        · rw [hx] at hr
          cases hr
        · exact ⟨c, hc1, hr⟩
      obtain ⟨before, c, after, hsplit, hc, hbefore, _⟩ := ih h1
      refine ⟨x :: before, c, after, by rw [hsplit]; rfl, hc, ?_, ?_⟩
      · intro d hd
        rcases List.mem_cons.mp hd with rfl | hd1
        · exact hx
        · exact hbefore d hd1
      · have hall : ∀ d ∈ x :: before, referencesObject a d = false := by
          intro d hd
          rcases List.mem_cons.mp hd with rfl | hd1
          · exact hx
          · exact hbefore d hd1
        rw [hsplit, ← List.cons_append, scanInputs_append a (x :: before) (c :: after) 0 hall,
          scanInputs_cons_of_ref a c after _ hc]
        simp

theorem GetInputObjectIndex_ok (convert : SuiAddress → Option SuiAddressBytes)
    (td : TransactionDataV1) (kind : TransactionKind) (pt : ProgrammableTransaction)
    (address : SuiAddress) (a : SuiAddressBytes) (hk : td.Kind = some kind)
    (hp : kind.ProgrammableTransaction = some pt) (hc : convert address = some a) :
    GetInputObjectIndex convert td address = Except.ok (scanInputs a pt.Inputs 0) := by
  simp [GetInputObjectIndex, hk, hp, hc]

theorem GetInputObjectIndex_payloadOf (convert : SuiAddress → Option SuiAddressBytes)
    (inputs : List CallArg) (commands : List Command) (address : SuiAddress)
    (a : SuiAddressBytes) (hc : convert address = some a) :
    GetInputObjectIndex convert (payloadOf inputs commands) address =
      Except.ok (scanInputs a inputs 0) :=
  GetInputObjectIndex_ok convert (payloadOf inputs commands) _ _ address a rfl rfl hc

/-! ## Sequences of calls -/

theorem step_ok (convert : SuiAddress → Option SuiAddressBytes) (td : TransactionDataV1)
    (kind : TransactionKind) (pt : ProgrammableTransaction) (op : Op)
    (hk : td.Kind = some kind) (hp : kind.ProgrammableTransaction = some pt) :
    ∃ (td1 : TransactionDataV1) (r : Ret) (kind1 : TransactionKind)
      (pt1 : ProgrammableTransaction),
      step convert td op = Except.ok (td1, r) ∧ td1.Kind = some kind1 ∧
      kind1.ProgrammableTransaction = some pt1 ∧
      pt1.Inputs = pt.Inputs ++ addedInputs [op] ∧
      pt1.Commands = pt.Commands ++ addedCommands [op] ∧
      inputReturns [r] = (List.range (addedInputs [op]).length).map
        (fun j => Argument.ofInput (uint16 (pt.Inputs.length + j))) := by
  cases op with
  | addInput x =>
    refine ⟨_, _, _, _, by rw [step, AddInput_ok td kind pt x hk hp], rfl, rfl, rfl, ?_, ?_⟩
    · simp [addedCommands]
    · simp [inputReturns, addedInputs, List.range_succ]
  | addCommand c =>
    refine ⟨_, _, _, _, by rw [step, AddCommand_ok td kind pt c hk hp], rfl, rfl, ?_, rfl, ?_⟩
    · simp [addedInputs]
    · simp [inputReturns, addedInputs]
  | getInputObjectIndex address =>
    cases hc : convert address with
    | none =>
      refine ⟨td, .lookup none, kind, pt, ?_, hk, hp, ?_, ?_, ?_⟩
      · simp [step, GetInputObjectIndex, hc]
      · simp [addedInputs]
      · simp [addedCommands]
      · simp [inputReturns, addedInputs]
    | some a =>
      refine ⟨td, .lookup (scanInputs a pt.Inputs 0), kind, pt, ?_, hk, hp, ?_, ?_, ?_⟩
      · rw [step, GetInputObjectIndex_ok convert td kind pt address a hk hp hc]
      · simp [addedInputs]
      · simp [addedCommands]
      · simp [inputReturns, addedInputs]

theorem addedInputs_cons (op : Op) (ops : List Op) :
    addedInputs (op :: ops) = addedInputs [op] ++ addedInputs ops := by
  cases op <;> simp [addedInputs]

theorem addedCommands_cons (op : Op) (ops : List Op) :
    addedCommands (op :: ops) = addedCommands [op] ++ addedCommands ops := by
  cases op <;> simp [addedCommands]

theorem inputReturns_cons (r : Ret) (rs : List Ret) :
    inputReturns (r :: rs) = inputReturns [r] ++ inputReturns rs := by
  cases r <;> simp [inputReturns]

theorem map_range_add {β : Type} (f : Nat → β) (m n : Nat) :
    (List.range (m + n)).map f =
      (List.range m).map f ++ (List.range n).map (fun j => f (m + j)) := by
  induction n with
  | zero => simp
  | succ n ih =>
    rw [← Nat.add_assoc, List.range_succ, List.map_append, ih, List.range_succ,
      List.map_append, List.append_assoc]
    rfl

/-- A sequence of calls on a payload whose kind is a programmable transaction runs to the
end; it appends the added inputs and commands in call order, and the k-th `AddInput`
call (counting from 0) returns `Input(uint16(n + k))`, `n` being the number of inputs at
the start. -/
theorem run_ok (convert : SuiAddress → Option SuiAddressBytes) (ops : List Op) :
    ∀ (td : TransactionDataV1) (kind : TransactionKind) (pt : ProgrammableTransaction),
      td.Kind = some kind → kind.ProgrammableTransaction = some pt →
      ∃ (td1 : TransactionDataV1) (rets : List Ret) (kind1 : TransactionKind)
        (pt1 : ProgrammableTransaction),
        run convert td ops = Except.ok (td1, rets) ∧ td1.Kind = some kind1 ∧
        kind1.ProgrammableTransaction = some pt1 ∧
        pt1.Inputs = pt.Inputs ++ addedInputs ops ∧
        pt1.Commands = pt.Commands ++ addedCommands ops ∧
        inputReturns rets = (List.range (addedInputs ops).length).map
          (fun j => Argument.ofInput (uint16 (pt.Inputs.length + j))) := by
  induction ops with
  | nil =>
    intro td kind pt hk hp
    exact ⟨td, [], kind, pt, rfl, hk, hp, by simp [addedInputs], by simp [addedCommands],
      by simp [addedInputs, inputReturns]⟩
  | cons op ops ih =>
    intro td kind pt hk hp
    obtain ⟨td1, r, kind1, pt1, hstep, hk1, hp1, hin1, hcmd1, hret1⟩ :=
      step_ok convert td kind pt op hk hp
    obtain ⟨td2, rets, kind2, pt2, hrun, hk2, hp2, hin2, hcmd2, hret2⟩ :=
      ih td1 kind1 pt1 hk1 hp1
    refine ⟨td2, r :: rets, kind2, pt2, ?_, hk2, hp2, ?_, ?_, ?_⟩
    · simp [run, hstep, hrun]
    · rw [hin2, hin1, addedInputs_cons op ops, List.append_assoc]
    · rw [hcmd2, hcmd1, addedCommands_cons op ops, List.append_assoc]
    · rw [inputReturns_cons, hret1, hret2, addedInputs_cons op ops, List.length_append,
        map_range_add, hin1, List.length_append]
      congr 1
      apply List.map_congr_left
      intro j _
      rw [Nat.add_assoc]

/-- Whatever the payload, a call that returns leaves the old inputs and commands as
initial segments of the new ones. -/
theorem step_grows (convert : SuiAddress → Option SuiAddressBytes) (td td1 : TransactionDataV1)
    (op : Op) (r : Ret) (h : step convert td op = Except.ok (td1, r)) :
    td.inputs <+: td1.inputs ∧ td.commands <+: td1.commands := by
  cases hk : td.Kind with
  | none =>
    cases op with
    | addInput x => simp [step, AddInput, hk] at h
    | addCommand c => simp [step, AddCommand, hk] at h
    | getInputObjectIndex address =>
      cases hc : convert address <;> simp [step, GetInputObjectIndex, hk, hc] at h
      obtain ⟨rfl, _⟩ := h
      exact ⟨List.prefix_refl _, List.prefix_refl _⟩
  | some kind =>
    cases hp : kind.ProgrammableTransaction with
    | none =>
      cases op with
      | addInput x => simp [step, AddInput, hk, hp] at h
      | addCommand c => simp [step, AddCommand, hk, hp] at h
      | getInputObjectIndex address =>
        cases hc : convert address <;> simp [step, GetInputObjectIndex, hk, hp, hc] at h
        obtain ⟨rfl, _⟩ := h
        exact ⟨List.prefix_refl _, List.prefix_refl _⟩
    | some pt =>
      obtain ⟨td2, r2, kind1, pt1, hstep, hk1, hp1, hin, hcmd, _⟩ :=
        step_ok convert td kind pt op hk hp
      rw [hstep] at h
      cases h
      rw [inputs_of_kind td kind pt hk hp, inputs_of_kind td1 kind1 pt1 hk1 hp1,
        commands_of_kind td kind pt hk hp, commands_of_kind td1 kind1 pt1 hk1 hp1, hin, hcmd]
      exact ⟨List.prefix_append _ _, List.prefix_append _ _⟩

theorem run_grows (convert : SuiAddress → Option SuiAddressBytes) (ops : List Op) :
    ∀ (td td1 : TransactionDataV1) (rets : List Ret),
      run convert td ops = Except.ok (td1, rets) →
      td.inputs <+: td1.inputs ∧ td.commands <+: td1.commands := by
  induction ops with
  | nil =>
    intro td td1 rets h
    simp [run] at h
    obtain ⟨rfl, _⟩ := h
    exact ⟨List.prefix_refl _, List.prefix_refl _⟩
  | cons op ops ih =>
    intro td td1 rets h
    cases hstep : step convert td op with
    | error e => simp [run, hstep] at h
    | ok res =>
      obtain ⟨tdm, r⟩ := res
      cases hrun : run convert tdm ops with
      | error e => simp [run, hstep, hrun] at h
      | ok res2 =>
        obtain ⟨tdf, rs⟩ := res2
        simp [run, hstep, hrun] at h
        obtain ⟨rfl, _⟩ := h
        have h1 := step_grows convert td tdm op r hstep
        have h2 := ih tdm tdf rs hrun
        exact ⟨h1.1.trans h2.1, h1.2.trans h2.2⟩

theorem getElem?_of_isPrefix {β : Type} {l₁ l₂ : List β} (h : l₁ <+: l₂) (i : Nat) (x : β)
    (hx : l₁[i]? = some x) : l₂[i]? = some x := by
  obtain ⟨t, rfl⟩ := h
  obtain ⟨hi, _⟩ := List.getElem?_eq_some.mp hx
  rw [List.getElem?_append_left hi]
  exact hx

theorem addedInputs_replicate (n : Nat) (x : CallArg) :
    addedInputs (List.replicate n (Op.addInput x)) = List.replicate n x := by
  induction n with
  | zero => rfl
  | succ n ih => rw [List.replicate_succ, List.replicate_succ, addedInputs, ih]

/-! ## The codec: where the encoding of a part lies in the encoding of the whole -/

theorem encodeElems_infix {α : Type} (enc : α → Option Bytes) (xs : List α) (x : α)
    (hx : x ∈ xs) (b : Bytes) (h : encodeElems enc xs = some b) :
    ∃ e, enc x = some e ∧ e <:+: b := by
  induction xs generalizing b with
  | nil => cases hx
  | cons y ys ih =>
    simp only [encodeElems, Option.bind_eq_some, Option.map_eq_some'] at h
    obtain ⟨ey, hy, bys, hys, rfl⟩ := h
    rcases List.mem_cons.mp hx with rfl | hmem
    · exact ⟨ey, hy, (List.prefix_append ey bys).isInfix⟩
    · obtain ⟨e, he, hinf⟩ := ih hmem bys hys
      exact ⟨e, he, hinf.trans (List.suffix_append ey bys).isInfix⟩

theorem encodeSeq_infix {α : Type} (enc : α → Option Bytes) (xs : List α) (x : α)
    (hx : x ∈ xs) (b : Bytes) (h : encodeSeq enc xs = some b) :
    ∃ e, enc x = some e ∧ e <:+: b := by
  simp only [encodeSeq, Option.map_eq_some'] at h
  obtain ⟨elems, helems, rfl⟩ := h
  obtain ⟨e, he, hinf⟩ := encodeElems_infix enc xs x hx elems helems
  exact ⟨e, he, hinf.trans (List.suffix_append _ elems).isInfix⟩

theorem encodeFields_infix (fs : List (Option Bytes)) (f : Option Bytes) (hf : f ∈ fs)
    (b : Bytes) (h : encodeFields fs = some b) : ∃ e, f = some e ∧ e <:+: b := by
  induction fs generalizing b with
  | nil => cases hf
  | cons g gs ih =>
    simp only [encodeFields, Option.bind_eq_some, Option.map_eq_some'] at h
    obtain ⟨eg, hg, bgs, hgs, rfl⟩ := h
    rcases List.mem_cons.mp hf with rfl | hmem
    · exact ⟨eg, hg, (List.prefix_append eg bgs).isInfix⟩
    · obtain ⟨e, he, hinf⟩ := ih hmem bgs hgs
      exact ⟨e, he, hinf.trans (List.suffix_append eg bgs).isInfix⟩

theorem populated_mem (cases : List (Option (Option Bytes))) (n : Nat) (q : Option Bytes)
    (h : some q ∈ cases) : ∃ i, (i, q) ∈ populated n cases := by
  induction cases generalizing n with
  | nil => cases h
  | cons c cs ih =>
    cases c with
    | none =>
      rcases List.mem_cons.mp h with hc | hmem
      · cases hc
      · obtain ⟨i, hi⟩ := ih (n + 1) hmem
        exact ⟨i, by simpa [populated] using hi⟩
    | some p =>
      rcases List.mem_cons.mp h with hc | hmem
      · cases hc
        exact ⟨n, by simp [populated]⟩
      · obtain ⟨i, hi⟩ := ih (n + 1) hmem
        exact ⟨i, by simp [populated, hi]⟩

/-- The payload of a populated case lies in the encoding of the union. -/
theorem encodeUnion_infix (cases : List (Option (Option Bytes))) (q : Option Bytes)
    (bs : Bytes) (hq : some q ∈ cases) (h : encodeUnion cases = some bs) :
    ∃ p, q = some p ∧ p <:+: bs := by
  obtain ⟨i, hi⟩ := populated_mem cases 0 q hq
  unfold encodeUnion at h
  generalize populated 0 cases = l at hi h
  match l, hi, h with
  | [], hi, _ => cases hi
  | [(j, payload)], hi, h =>
    simp only [List.mem_singleton, Prod.mk.injEq] at hi
    obtain ⟨_, rfl⟩ := hi
    simp only [Option.map_eq_some'] at h
    obtain ⟨p, rfl, rfl⟩ := h
    exact ⟨p, rfl, (List.suffix_append _ p).isInfix⟩
  | _ :: _ :: _, _, h => cases h

/-- The encoding of each argument a command holds lies in the encoding of the command. -/
theorem encodeCommand_infix (c : Command) (a : Argument) (bs : Bytes)
    (ha : a ∈ c.arguments) (h : encodeCommand c = some bs) :
    ∃ e, encodeArgument a = some e ∧ e <:+: bs := by
  unfold encodeCommand at h
  simp only [Command.arguments, List.mem_append] at ha
  rcases ha with ((((ha | ha) | ha) | ha) | ha) | ha
  · cases hm : c.MoveCall with
    | none => simp [hm] at ha
    | some m =>
      simp only [hm] at ha
      obtain ⟨p, hp, hpb⟩ := encodeUnion_infix _ (encodeProgrammableMoveCall m) bs
        (by simp [hm]) h
      obtain ⟨f, hf, hfp⟩ := encodeFields_infix _ (encodeSeq encodeArgument m.Arguments)
        (by simp) p hp
      obtain ⟨e, he, hef⟩ := encodeSeq_infix encodeArgument m.Arguments a ha f hf
      exact ⟨e, he, (hef.trans hfp).trans hpb⟩
  · cases hm : c.TransferObjects with
    | none => simp [hm] at ha
    | some t =>
      simp only [hm, List.mem_append, List.mem_singleton] at ha
      obtain ⟨p, hp, hpb⟩ := encodeUnion_infix _ (encodeTransferObjects t) bs
        (by simp [hm]) h
      rcases ha with ha | rfl
      · obtain ⟨f, hf, hfp⟩ := encodeFields_infix _ (encodeSeq encodeArgument t.Objects)
          (by simp) p hp
        obtain ⟨e, he, hef⟩ := encodeSeq_infix encodeArgument t.Objects a ha f hf
        exact ⟨e, he, (hef.trans hfp).trans hpb⟩
      · obtain ⟨e, he, hep⟩ := encodeFields_infix _ (encodeArgument t.Address) (by simp) p hp
        exact ⟨e, he, hep.trans hpb⟩
  · cases hm : c.SplitCoins with
    | none => simp [hm] at ha
    | some t =>
      simp only [hm, List.mem_cons] at ha
      obtain ⟨p, hp, hpb⟩ := encodeUnion_infix _ (encodeSplitCoins t) bs (by simp [hm]) h
      rcases ha with rfl | ha
      · obtain ⟨e, he, hep⟩ := encodeFields_infix _ (encodeArgument t.Coin) (by simp) p hp
        exact ⟨e, he, hep.trans hpb⟩
      · obtain ⟨f, hf, hfp⟩ := encodeFields_infix _ (encodeSeq encodeArgument t.Amount)
          (by simp) p hp
        obtain ⟨e, he, hef⟩ := encodeSeq_infix encodeArgument t.Amount a ha f hf
        exact ⟨e, he, (hef.trans hfp).trans hpb⟩
  · cases hm : c.MergeCoins with
    | none => simp [hm] at ha
    | some t =>
      simp only [hm, List.mem_cons] at ha
      obtain ⟨p, hp, hpb⟩ := encodeUnion_infix _ (encodeMergeCoins t) bs (by simp [hm]) h
      rcases ha with rfl | ha
      · obtain ⟨e, he, hep⟩ := encodeFields_infix _ (encodeArgument t.Destination)
          (by simp) p hp
        exact ⟨e, he, hep.trans hpb⟩
      · obtain ⟨f, hf, hfp⟩ := encodeFields_infix _ (encodeSeq encodeArgument t.Sources)
          (by simp) p hp
        obtain ⟨e, he, hef⟩ := encodeSeq_infix encodeArgument t.Sources a ha f hf
        exact ⟨e, he, (hef.trans hfp).trans hpb⟩
  · cases hm : c.MakeMoveVec with
    | none => simp [hm] at ha
    | some t =>
      simp only [hm] at ha
      obtain ⟨p, hp, hpb⟩ := encodeUnion_infix _ (encodeMakeMoveVec t) bs (by simp [hm]) h
      obtain ⟨f, hf, hfp⟩ := encodeFields_infix _ (encodeSeq encodeArgument t.Elements)
        (by simp) p hp
      obtain ⟨e, he, hef⟩ := encodeSeq_infix encodeArgument t.Elements a ha f hf
      exact ⟨e, he, (hef.trans hfp).trans hpb⟩
  · cases hm : c.Upgrade with
    | none => simp [hm] at ha
    | some t =>
      simp only [hm, List.mem_singleton] at ha
      subst ha
      obtain ⟨p, hp, hpb⟩ := encodeUnion_infix _ (encodeUpgrade t) bs (by simp [hm]) h
      obtain ⟨e, he, hep⟩ := encodeFields_infix _ (encodeArgument t.Ticket) (by simp) p hp
      exact ⟨e, he, hep.trans hpb⟩

theorem littleEndian_two (n : Nat) (h : n < 2 ^ 16) :
    littleEndian 2 n = [n % 256, n / 256] := by
  have h1 : n / 256 % 256 = n / 256 := Nat.mod_eq_of_lt (by omega)
  simp [littleEndian, h1]

theorem encodeArgument_ofResult (k : Nat) (h : k < 2 ^ 16) :
    encodeArgument (Argument.ofResult k) = some [2, k % 256, k / 256] := by
  simp [encodeArgument, Argument.ofResult, encodeUnion, populated, unitCase, ULEB128Encode,
    uleb128Aux, littleEndian_two k h]

/-- The modelled codec reproduces the bytes that the golden vector of the test case
"tx transfer using gas" holds for the transaction kind (its bytes 1 to 65). -/
theorem Marshal_transferUsingGasKind :
    TransactionKind.Marshal transferUsingGasKind =
      some ([0, 2, 0, 8, 0x00, 0xe1, 0xf5, 0x05, 0, 0, 0, 0, 0, 32] ++ List.replicate 31 0 ++
        [9, 2, 2, 0, 1, 1, 0, 0, 1, 1, 2, 0, 0, 1, 1, 0]) := by
  rfl

/-! ## The claims -/

/-- C1 (as amended): for every builder payload whose Kind is a ProgrammableTransaction and
whose Inputs hold fewer than 65536 entries, and every CallArg x, AddInput(x) returns an
Argument whose only populated case is Input, holding the length of Inputs before the call,
and afterwards Inputs equals the old Inputs with x appended as its last element, so that
Inputs at the returned index is x. -/
theorem C1_AddInput_returns_position (td : TransactionDataV1) (kind : TransactionKind)
    (pt : ProgrammableTransaction) (x : CallArg) (hk : td.Kind = some kind)
    (hp : kind.ProgrammableTransaction = some pt) (hlen : pt.Inputs.length < 2 ^ 16) :
    ∃ td1 : TransactionDataV1,
      AddInput td x = Except.ok (td1,
        { GasCoin := none, Input := some pt.Inputs.length, Result := none,
          NestedResult := none }) ∧
      td1.inputs = pt.Inputs ++ [x] ∧
      td1.inputs[pt.Inputs.length]? = some x := by
  refine ⟨withProgrammable td kind { pt with Inputs := pt.Inputs ++ [x] }, ?_, ?_, ?_⟩
  · rw [AddInput_ok td kind pt x hk hp, uint16_of_lt hlen]
    rfl
  · simp
  · simp

/-- Witness of C1: adding an owned-object input to a payload that holds two inputs returns
`Input(2)` and leaves the new input at index 2. -/
theorem C1_AddInput_returns_position_witness :
    ∃ td1 : TransactionDataV1,
      AddInput (payloadOf [pureInput [1], pureInput [2]] []) (ownedObjectInput [7]) =
        Except.ok (td1,
          { GasCoin := none, Input := some 2, Result := none, NestedResult := none }) ∧
      td1.inputs = [pureInput [1], pureInput [2]] ++ [ownedObjectInput [7]] ∧
      td1.inputs[2]? = some (ownedObjectInput [7]) :=
  C1_AddInput_returns_position (payloadOf [pureInput [1], pureInput [2]] []) _ _
    (ownedObjectInput [7]) rfl rfl (by decide)

/-- Counterexample to C1 as stated: on a payload that already holds 65536 inputs, AddInput
returns `Input(0)`, not `Input(65536)`, and the input at index 0 is not the one added. -/
theorem C1_counterexample :
    (payloadOf (List.replicate 65536 (pureInput [])) []).inputs.length = 65536 ∧
    AddInput (payloadOf (List.replicate 65536 (pureInput [])) []) (ownedObjectInput [7]) =
      Except.ok (payloadOf (List.replicate 65536 (pureInput []) ++ [ownedObjectInput [7]]) [],
        { GasCoin := none, Input := some 0, Result := none, NestedResult := none }) ∧
    (List.replicate 65536 (pureInput []) ++ [ownedObjectInput [7]])[0]? ≠
      some (ownedObjectInput [7]) := by
  refine ⟨?_, ?_, ?_⟩
  · exact List.length_replicate 65536 (pureInput [])
  · rw [AddInput_payloadOf, List.length_replicate]
    rfl
  · rw [List.getElem?_append_left (by rw [List.length_replicate]; decide),
      List.getElem?_replicate]
    simp [pureInput, ownedObjectInput]

/-- C2 (as amended): for every builder payload whose Kind is a ProgrammableTransaction and
whose Commands hold fewer than 65536 entries, and every Command c, AddCommand(c) returns
the position of c, that is the length of Commands before the call, and afterwards Commands
equals the old Commands with c appended as its last element. -/
theorem C2_AddCommand_returns_position (td : TransactionDataV1) (kind : TransactionKind)
    (pt : ProgrammableTransaction) (c : Command) (hk : td.Kind = some kind)
    (hp : kind.ProgrammableTransaction = some pt) (hlen : pt.Commands.length < 2 ^ 16) :
    ∃ td1 : TransactionDataV1,
      AddCommand td c = Except.ok (td1, pt.Commands.length) ∧
      td1.commands = pt.Commands ++ [c] ∧
      td1.commands[pt.Commands.length]? = some c := by
  refine ⟨withProgrammable td kind { pt with Commands := pt.Commands ++ [c] }, ?_, ?_, ?_⟩
  · rw [AddCommand_ok td kind pt c hk hp, uint16_of_lt hlen]
  · simp
  · simp

/-- Witness of C2: adding a command to a payload that holds one command returns 1 and
leaves the new command at index 1. -/
theorem C2_AddCommand_returns_position_witness :
    ∃ td1 : TransactionDataV1,
      AddCommand (payloadOf [] [splitCoinsCommand Argument.gasCoin []])
          (mergeCoinsCommand Argument.gasCoin []) = Except.ok (td1, 1) ∧
      td1.commands =
        [splitCoinsCommand Argument.gasCoin []] ++ [mergeCoinsCommand Argument.gasCoin []] ∧
      td1.commands[1]? = some (mergeCoinsCommand Argument.gasCoin []) :=
  C2_AddCommand_returns_position (payloadOf [] [splitCoinsCommand Argument.gasCoin []]) _ _
    (mergeCoinsCommand Argument.gasCoin []) rfl rfl (by decide)

/-- Counterexample to C2 as stated: on a payload that already holds 65536 commands,
AddCommand returns 0, which is neither the length before the call nor the position of
the command just added. -/
theorem C2_counterexample :
    (payloadOf [] (List.replicate 65536 (splitCoinsCommand Argument.gasCoin []))).commands.length
      = 65536 ∧
    AddCommand (payloadOf [] (List.replicate 65536 (splitCoinsCommand Argument.gasCoin [])))
        (mergeCoinsCommand Argument.gasCoin []) =
      Except.ok
        (payloadOf []
          (List.replicate 65536 (splitCoinsCommand Argument.gasCoin []) ++
            [mergeCoinsCommand Argument.gasCoin []]), 0) ∧
    (0 : Nat) ≠ 65536 := by
  refine ⟨?_, ?_, by decide⟩
  · exact List.length_replicate 65536 (splitCoinsCommand Argument.gasCoin [])
  · rw [AddCommand_payloadOf, List.length_replicate]
    rfl

/-- C3 (as amended): for every Inputs list and every address that converts successfully, if
at least one input is an Object case whose ImmOrOwnedObject, SharedObject or Receiving
object id equals the address bytes, GetInputObjectIndex returns the lowest index of such an
input converted to `uint16` (reduced modulo 65536), which is the lowest index itself
whenever that index is below 65536; this also holds when several inputs reference the same
object. -/
theorem C3_GetInputObjectIndex_first_match (convert : SuiAddress → Option SuiAddressBytes)
    (td : TransactionDataV1) (kind : TransactionKind) (pt : ProgrammableTransaction)
    (address : SuiAddress) (a : SuiAddressBytes) (hk : td.Kind = some kind)
    (hp : kind.ProgrammableTransaction = some pt) (hc : convert address = some a)
    (h : ∃ c ∈ pt.Inputs, referencesObject a c = true) :
    ∃ i : Nat,
      (∃ c, pt.Inputs[i]? = some c ∧ referencesObject a c = true) ∧
      (∀ j, j < i → ∀ d, pt.Inputs[j]? = some d → referencesObject a d = false) ∧
      GetInputObjectIndex convert td address = Except.ok (some (i % 2 ^ 16)) ∧
      (i < 2 ^ 16 → GetInputObjectIndex convert td address = Except.ok (some i)) := by
  obtain ⟨before, c, after, hsplit, hcref, hbefore, hscan⟩ := scanInputs_first a pt.Inputs h
  have hres : GetInputObjectIndex convert td address =
      Except.ok (some (before.length % 2 ^ 16)) := by
    rw [GetInputObjectIndex_ok convert td kind pt address a hk hp hc, hscan]
    rfl
  refine ⟨before.length, ⟨c, ?_, hcref⟩, ?_, hres, ?_⟩
  · rw [hsplit, List.getElem?_append_right (Nat.le_refl _), Nat.sub_self]
    simp
  · intro j hj d hd
    rw [hsplit, List.getElem?_append_left hj] at hd
    exact hbefore d (List.getElem?_mem hd)
  · intro hlt
    rw [hres, Nat.mod_eq_of_lt hlt]

/-- Witness of C3: with a pure input at index 0 and two object inputs for the same object
at indices 1 and 2, the lookup has a lowest referencing index and returns it. -/
theorem C3_GetInputObjectIndex_first_match_witness :
    ∃ i : Nat,
      (∃ c, [pureInput [7], ownedObjectInput [7], sharedObjectInput [7]][i]? = some c ∧
        referencesObject [7] c = true) ∧
      (∀ j, j < i → ∀ d,
        [pureInput [7], ownedObjectInput [7], sharedObjectInput [7]][j]? = some d →
        referencesObject [7] d = false) ∧
      GetInputObjectIndex (fun _ => some [7])
          (payloadOf [pureInput [7], ownedObjectInput [7], sharedObjectInput [7]] [])
          "0x7" = Except.ok (some (i % 2 ^ 16)) ∧
      (i < 2 ^ 16 →
        GetInputObjectIndex (fun _ => some [7])
          (payloadOf [pureInput [7], ownedObjectInput [7], sharedObjectInput [7]] [])
          "0x7" = Except.ok (some i)) :=
  C3_GetInputObjectIndex_first_match (fun _ => some [7])
    (payloadOf [pureInput [7], ownedObjectInput [7], sharedObjectInput [7]] []) _ _ "0x7" [7]
    rfl rfl rfl ⟨ownedObjectInput [7], by simp, by decide⟩

/-- Counterexample to C3 as stated: with 65536 pure inputs followed by one object input for
the address, the only referencing input is at index 65536, yet the lookup returns 0, the
index of a pure input. -/
theorem C3_counterexample :
    GetInputObjectIndex (fun _ => some [7])
        (payloadOf (List.replicate 65536 (pureInput []) ++ [ownedObjectInput [7]]) [])
        "0x7" = Except.ok (some 0) ∧
    (List.replicate 65536 (pureInput []) ++ [ownedObjectInput [7]])[0]? =
      some (pureInput []) ∧
    referencesObject [7] (pureInput []) = false ∧
    (List.replicate 65536 (pureInput []) ++ [ownedObjectInput [7]])[65536]? =
      some (ownedObjectInput [7]) ∧
    referencesObject [7] (ownedObjectInput [7]) = true := by
  refine ⟨?_, ?_, by decide, ?_, by decide⟩
  · rw [GetInputObjectIndex_payloadOf _ _ _ _ [7] rfl]
    have hnone : ∀ c ∈ List.replicate 65536 (pureInput []), referencesObject [7] c = false := by
      intro c hc
      rw [List.eq_of_mem_replicate hc]
      decide
    rw [scanInputs_append [7] _ _ 0 hnone,
      scanInputs_cons_of_ref [7] _ _ _ (by decide), List.length_replicate]
    rfl
  · rw [List.getElem?_append_left (by rw [List.length_replicate]; decide),
      List.getElem?_replicate]
    rfl
  · rw [List.getElem?_append_right (by rw [List.length_replicate]), List.length_replicate]
    rfl

theorem referencesObject_of_no_object (a : SuiAddressBytes) (c : CallArg)
    (h : c.Object = none) : referencesObject a c = false := by
  simp [referencesObject, h]

/-- C4: for every Inputs list and every address, if no input is an Object case whose object
id (in its ImmOrOwnedObject, SharedObject or Receiving sub-case) equals the address bytes,
GetInputObjectIndex returns none; in particular it returns none on an empty Inputs list. -/
theorem C4_GetInputObjectIndex_no_match (convert : SuiAddress → Option SuiAddressBytes)
    (td : TransactionDataV1) (kind : TransactionKind) (pt : ProgrammableTransaction)
    (address : SuiAddress) (hk : td.Kind = some kind)
    (hp : kind.ProgrammableTransaction = some pt) :
    ((∀ a, convert address = some a → ∀ c ∈ pt.Inputs, referencesObject a c = false) →
      GetInputObjectIndex convert td address = Except.ok none) ∧
    (pt.Inputs = [] → GetInputObjectIndex convert td address = Except.ok none) := by
  have main : (∀ a, convert address = some a → ∀ c ∈ pt.Inputs, referencesObject a c = false) →
      GetInputObjectIndex convert td address = Except.ok none := by
    intro h
    cases hc : convert address with
    | none => simp [GetInputObjectIndex, hc]
    | some a =>
      rw [GetInputObjectIndex_ok convert td kind pt address a hk hp hc,
        scanInputs_of_none a pt.Inputs 0 (h a hc)]
  refine ⟨main, fun hnil => main ?_⟩
  intro a _ c hc
  rw [hnil] at hc
  cases hc

/-- Witness of C4: a lookup of object 7 among inputs that reference only object 8, and a
lookup in an empty input list, both return none. -/
theorem C4_GetInputObjectIndex_no_match_witness :
    GetInputObjectIndex (fun _ => some [7])
        (payloadOf [pureInput [7], ownedObjectInput [8]] []) "0x7" = Except.ok none ∧
    GetInputObjectIndex (fun _ => some [7]) (payloadOf [] []) "0x7" = Except.ok none :=
  ⟨(C4_GetInputObjectIndex_no_match (fun _ => some [7])
      (payloadOf [pureInput [7], ownedObjectInput [8]] []) _ _ "0x7" rfl rfl).1
      (by
        intro a ha c hc
        cases ha
        simp only [List.mem_cons, List.mem_singleton, List.not_mem_nil, or_false] at hc
        rcases hc with rfl | rfl <;> decide),
    (C4_GetInputObjectIndex_no_match (fun _ => some [7]) (payloadOf [] []) _ _ "0x7"
      rfl rfl).2 rfl⟩

/-- C5: for every address, if every input in Inputs is a Pure, UnresolvedPure or
UnresolvedObject case (none is an Object case), GetInputObjectIndex returns none, even when
a Pure payload or an UnresolvedObject id equals the address bytes. -/
theorem C5_GetInputObjectIndex_ignores_non_objects
    (convert : SuiAddress → Option SuiAddressBytes) (td : TransactionDataV1)
    (kind : TransactionKind) (pt : ProgrammableTransaction) (address : SuiAddress)
    (hk : td.Kind = some kind) (hp : kind.ProgrammableTransaction = some pt)
    (h : ∀ c ∈ pt.Inputs, c.Object = none) :
    GetInputObjectIndex convert td address = Except.ok none := by
  cases hc : convert address with
  | none => simp [GetInputObjectIndex, hc]
  | some a =>
    rw [GetInputObjectIndex_ok convert td kind pt address a hk hp hc,
      scanInputs_of_none a pt.Inputs 0
        (fun c hcmem => referencesObject_of_no_object a c (h c hcmem))]

/-- Witness of C5: a pure input whose bytes are the address bytes and an unresolved object
with that id are not matched. -/
theorem C5_GetInputObjectIndex_ignores_non_objects_witness :
    GetInputObjectIndex (fun _ => some [7])
      (payloadOf [pureInput [7], unresolvedObjectInput [7]] []) "0x7" = Except.ok none :=
  C5_GetInputObjectIndex_ignores_non_objects (fun _ => some [7])
    (payloadOf [pureInput [7], unresolvedObjectInput [7]] []) _ _ "0x7" rfl rfl
    (by
      intro c hc
      simp only [List.mem_cons, List.mem_singleton, List.not_mem_nil, or_false] at hc
      rcases hc with rfl | rfl <;> rfl)

/-- C6 (as amended): starting from a builder with an empty ProgrammableTransaction, every
sequence of AddInput and AddCommand calls (lookups may be interleaved as well) runs to the
end, and for every N >= 1 the Nth call to AddInput returns `Input((N-1) mod 65536)`, which
is `Input(N-1)` for every N up to 65536, regardless of how many AddCommand calls are
interleaved. -/
theorem C6_nth_AddInput_returns (convert : SuiAddress → Option SuiAddressBytes)
    (td : TransactionDataV1) (kind : TransactionKind) (hk : td.Kind = some kind)
    (hp : kind.ProgrammableTransaction = some { Inputs := [], Commands := [] })
    (ops : List Op) :
    ∃ (td1 : TransactionDataV1) (rets : List Ret),
      run convert td ops = Except.ok (td1, rets) ∧
      (inputReturns rets).length = (addedInputs ops).length ∧
      ∀ N, 1 ≤ N → N ≤ (addedInputs ops).length →
        (inputReturns rets)[N - 1]? = some (Argument.ofInput ((N - 1) % 2 ^ 16)) ∧
        (N ≤ 2 ^ 16 → (inputReturns rets)[N - 1]? = some (Argument.ofInput (N - 1))) := by
  obtain ⟨td1, rets, _, _, hrun, _, _, _, _, hret⟩ := run_ok convert ops td kind _ hk hp
  refine ⟨td1, rets, hrun, by rw [hret]; simp, ?_⟩
  intro N hN hle
  have hlt : N - 1 < (addedInputs ops).length := by omega
  have hget : (inputReturns rets)[N - 1]? = some (Argument.ofInput ((N - 1) % 2 ^ 16)) := by
    rw [hret, List.getElem?_map, List.getElem?_range hlt]
    simp [uint16]
  refine ⟨hget, fun h16 => ?_⟩
  rw [hget, Nat.mod_eq_of_lt (by omega)]

/-- Witness of C6: with an AddCommand between two AddInput calls on an empty builder, the
first AddInput returns `Input(0)` and the second `Input(1)`. -/
theorem C6_nth_AddInput_returns_witness :
    ∃ (td1 : TransactionDataV1) (rets : List Ret),
      run (fun _ => none) (payloadOf [] [])
        [Op.addInput (pureInput [1]), Op.addCommand (splitCoinsCommand Argument.gasCoin []),
          Op.addInput (pureInput [2])] = Except.ok (td1, rets) ∧
      (inputReturns rets).length =
        (addedInputs
          [Op.addInput (pureInput [1]), Op.addCommand (splitCoinsCommand Argument.gasCoin []),
            Op.addInput (pureInput [2])]).length ∧
      ∀ N, 1 ≤ N →
        N ≤ (addedInputs
          [Op.addInput (pureInput [1]), Op.addCommand (splitCoinsCommand Argument.gasCoin []),
            Op.addInput (pureInput [2])]).length →
        (inputReturns rets)[N - 1]? = some (Argument.ofInput ((N - 1) % 2 ^ 16)) ∧
        (N ≤ 2 ^ 16 → (inputReturns rets)[N - 1]? = some (Argument.ofInput (N - 1))) :=
  C6_nth_AddInput_returns (fun _ => none) (payloadOf [] []) _ rfl rfl
    [Op.addInput (pureInput [1]), Op.addCommand (splitCoinsCommand Argument.gasCoin []),
      Op.addInput (pureInput [2])]

/-- Counterexample to C6 as stated: in a sequence of 65537 AddInput calls on an empty
builder, the 65537th call returns `Input(0)`, not `Input(65536)`. -/
theorem C6_counterexample :
    ∃ (td1 : TransactionDataV1) (rets : List Ret),
      run (fun _ => none) (payloadOf [] [])
        (List.replicate 65537 (Op.addInput (pureInput []))) = Except.ok (td1, rets) ∧
      (inputReturns rets)[65537 - 1]? = some (Argument.ofInput 0) ∧
      Argument.ofInput 0 ≠ Argument.ofInput (65537 - 1) := by
  obtain ⟨td1, rets, _, _, hrun, _, _, _, _, hret⟩ :=
    run_ok (fun _ => none) (List.replicate 65537 (Op.addInput (pureInput [])))
      (payloadOf [] []) _ _ rfl rfl
  refine ⟨td1, rets, hrun, ?_, by decide⟩
  rw [hret, addedInputs_replicate, List.length_replicate, List.getElem?_map,
    List.getElem?_range (by decide)]
  rfl

/-- C7 (as amended): index stability. Inputs and Commands only grow: for every builder
state and every later sequence of AddInput, AddCommand and GetInputObjectIndex calls that
returns, the old Inputs and old Commands are initial segments of the new ones; so on a
payload whose Kind is a ProgrammableTransaction, an index issued by AddInput for a value x
while Inputs hold fewer than 65536 entries (or by AddCommand for a command while Commands
hold fewer than 65536 entries) addresses x at once and still addresses x after any such
sequence of further calls, which always returns. -/
theorem C7_index_stability (convert : SuiAddress → Option SuiAddressBytes)
    (td : TransactionDataV1) (kind : TransactionKind) (pt : ProgrammableTransaction)
    (hk : td.Kind = some kind) (hp : kind.ProgrammableTransaction = some pt)
    (ops : List Op) :
    (∀ (t t1 : TransactionDataV1) (rets : List Ret),
      run convert t ops = Except.ok (t1, rets) →
      t.inputs <+: t1.inputs ∧ t.commands <+: t1.commands) ∧
    (∀ x : CallArg, pt.Inputs.length < 2 ^ 16 →
      ∃ (td0 : TransactionDataV1) (i : Nat) (td1 : TransactionDataV1) (rets : List Ret),
        AddInput td x = Except.ok (td0, Argument.ofInput i) ∧ td0.inputs[i]? = some x ∧
        run convert td0 ops = Except.ok (td1, rets) ∧
        td0.inputs <+: td1.inputs ∧ td0.commands <+: td1.commands ∧
        td1.inputs[i]? = some x) ∧
    (∀ c : Command, pt.Commands.length < 2 ^ 16 →
      ∃ (td0 : TransactionDataV1) (i : Nat) (td1 : TransactionDataV1) (rets : List Ret),
        AddCommand td c = Except.ok (td0, i) ∧ td0.commands[i]? = some c ∧
        run convert td0 ops = Except.ok (td1, rets) ∧
        td0.inputs <+: td1.inputs ∧ td0.commands <+: td1.commands ∧
        td1.commands[i]? = some c) := by
  refine ⟨fun t t1 rets h => run_grows convert ops t t1 rets h, ?_, ?_⟩
  · intro x hlen
    have hadd := AddInput_ok td kind pt x hk hp
    rw [uint16_of_lt hlen] at hadd
    obtain ⟨td1, rets, _, _, hrun, _⟩ :=
      run_ok convert ops (withProgrammable td kind { pt with Inputs := pt.Inputs ++ [x] })
        _ _ rfl rfl
    obtain ⟨hin, hcmd⟩ := run_grows convert ops _ td1 rets hrun
    have h0 : (withProgrammable td kind { pt with Inputs := pt.Inputs ++ [x] }).inputs[
        pt.Inputs.length]? = some x := by simp
    exact ⟨_, pt.Inputs.length, td1, rets, hadd, h0, hrun, hin, hcmd,
      getElem?_of_isPrefix hin _ x h0⟩
  · intro c hlen
    have hadd := AddCommand_ok td kind pt c hk hp
    rw [uint16_of_lt hlen] at hadd
    obtain ⟨td1, rets, _, _, hrun, _⟩ :=
      run_ok convert ops (withProgrammable td kind { pt with Commands := pt.Commands ++ [c] })
        _ _ rfl rfl
    obtain ⟨hin, hcmd⟩ := run_grows convert ops _ td1 rets hrun
    have h0 : (withProgrammable td kind { pt with Commands := pt.Commands ++ [c] }).commands[
        pt.Commands.length]? = some c := by simp
    exact ⟨_, pt.Commands.length, td1, rets, hadd, h0, hrun, hin, hcmd,
      getElem?_of_isPrefix hcmd _ c h0⟩

/-- Witness of C7: on a payload with one input and one command, AddInput issues an index
for a new pure input, and after a further AddInput, a lookup and an AddCommand that index
still addresses the pure input. -/
theorem C7_index_stability_witness :
    ∃ (td0 : TransactionDataV1) (i : Nat) (td1 : TransactionDataV1) (rets : List Ret),
      AddInput (payloadOf [ownedObjectInput [7]] [splitCoinsCommand Argument.gasCoin []])
        (pureInput [2]) = Except.ok (td0, Argument.ofInput i) ∧
      td0.inputs[i]? = some (pureInput [2]) ∧
      run (fun _ => some [7]) td0
        [Op.addInput (pureInput [3]), Op.getInputObjectIndex "0x7",
          Op.addCommand (mergeCoinsCommand Argument.gasCoin [])] = Except.ok (td1, rets) ∧
      td0.inputs <+: td1.inputs ∧ td0.commands <+: td1.commands ∧
      td1.inputs[i]? = some (pureInput [2]) :=
  (C7_index_stability (fun _ => some [7])
    (payloadOf [ownedObjectInput [7]] [splitCoinsCommand Argument.gasCoin []]) _ _ rfl rfl
    [Op.addInput (pureInput [3]), Op.getInputObjectIndex "0x7",
      Op.addCommand (mergeCoinsCommand Argument.gasCoin [])]).2.1 (pureInput [2]) (by decide)

/-- Counterexample to C7 as stated: on a payload that holds 65536 inputs, AddInput issues
`Input(0)` for an object input; after a further AddCommand call the input at index 0 is
still the old pure input, not the object input the index was issued for. -/
theorem C7_counterexample :
    AddInput (payloadOf (List.replicate 65536 (pureInput [])) []) (ownedObjectInput [7]) =
      Except.ok (payloadOf (List.replicate 65536 (pureInput []) ++ [ownedObjectInput [7]]) [],
        Argument.ofInput 0) ∧
    run (fun _ => none)
        (payloadOf (List.replicate 65536 (pureInput []) ++ [ownedObjectInput [7]]) [])
        [Op.addCommand (splitCoinsCommand Argument.gasCoin [])] =
      Except.ok
        (payloadOf (List.replicate 65536 (pureInput []) ++ [ownedObjectInput [7]])
          [splitCoinsCommand Argument.gasCoin []], [Ret.index 0]) ∧
    (payloadOf (List.replicate 65536 (pureInput []) ++ [ownedObjectInput [7]])
        [splitCoinsCommand Argument.gasCoin []]).inputs[0]? = some (pureInput []) ∧
    pureInput [] ≠ ownedObjectInput [7] := by
  refine ⟨?_, rfl, ?_, by decide⟩
  · rw [AddInput_payloadOf, List.length_replicate]
    rfl
  · show (List.replicate 65536 (pureInput []) ++ [ownedObjectInput [7]])[0]? = _
    rw [List.getElem?_append_left (by rw [List.length_replicate]; decide),
      List.getElem?_replicate]
    rfl

/-- C8: for every GasData value, IsAllSet returns true exactly when all four of Payment,
Owner, Price and Budget are set, and false as soon as any one of them is unset. -/
theorem C8_IsAllSet (gd : GasData) :
    (gd.IsAllSet = true ↔
      (gd.Payment ≠ none ∧ gd.Owner ≠ none ∧ gd.Price ≠ none ∧ gd.Budget ≠ none)) ∧
    (gd.IsAllSet = false ↔
      (gd.Payment = none ∨ gd.Owner = none ∨ gd.Price = none ∨ gd.Budget = none)) := by
  obtain ⟨payment, owner, price, budget⟩ := gd
  cases payment <;> cases owner <;> cases price <;> cases budget <;>
    simp [GasData.IsAllSet]

/-- C9: encoding only the TransactionKind of a ProgrammableTransaction with no inputs and
no commands yields exactly the three bytes 00 00 00 (variant index 0, Inputs length 0,
Commands length 0), whose base64 rendering is "AAAA". -/
theorem C9_empty_kind_encoding :
    TransactionKind.Marshal emptyProgrammableKind = some [0, 0, 0] ∧
    String.mk (base64Encode [0, 0, 0]) = "AAAA" := by
  constructor
  · rfl
  · decide

/-- C10: for every k, i, j in the 16-bit range, an Argument encodes as its variant index
followed by its payload: GasCoin is the single byte 00, Input(i) is 01 followed by i as 2
little-endian bytes, Result(k) is 02 followed by k as 2 little-endian bytes, and
NestedResult(k, j) is 03 followed by k then j, each as 2 little-endian bytes; so a
Result(k) built from the index k that AddCommand returned for the command at position k
appears inside the encoding of every later command that holds it as 02 followed by k. -/
theorem C10_argument_encoding (k i j : Nat) (hk : k < 2 ^ 16) (hi : i < 2 ^ 16)
    (hj : j < 2 ^ 16) :
    encodeArgument Argument.gasCoin = some [0] ∧
    encodeArgument (Argument.ofInput i) = some [1, i % 256, i / 256] ∧
    encodeArgument (Argument.ofResult k) = some [2, k % 256, k / 256] ∧
    encodeArgument (Argument.ofNestedResult k j) =
      some [3, k % 256, k / 256, j % 256, j / 256] ∧
    ∀ (td td1 : TransactionDataV1) (producer : Command) (index : Nat),
      td.commands.length = k → AddCommand td producer = Except.ok (td1, index) →
      td1.commands[k]? = some producer ∧
      ∀ (later : Command) (bs : Bytes),
        Argument.ofResult index ∈ later.arguments → encodeCommand later = some bs →
        [2, k % 256, k / 256] <:+: bs := by
  refine ⟨?_, ?_, encodeArgument_ofResult k hk, ?_, ?_⟩
  · simp [encodeArgument, Argument.gasCoin, encodeUnion, populated, unitCase, ULEB128Encode,
      uleb128Aux]
  · simp [encodeArgument, Argument.ofInput, encodeUnion, populated, unitCase, ULEB128Encode,
      uleb128Aux, littleEndian_two i hi]
  · simp [encodeArgument, Argument.ofNestedResult, encodeUnion, populated, unitCase,
      ULEB128Encode, uleb128Aux, littleEndian_two k hk, littleEndian_two j hj]
  · intro td td1 producer index hlen hadd
    cases hkind : td.Kind with
    | none => simp [AddCommand, hkind] at hadd
    | some kind =>
      cases hp : kind.ProgrammableTransaction with
      | none => simp [AddCommand, hkind, hp] at hadd
      | some pt =>
        rw [commands_of_kind td kind pt hkind hp] at hlen
        rw [AddCommand_ok td kind pt producer hkind hp, hlen, uint16_of_lt hk] at hadd
        cases hadd
        refine ⟨by simp [← hlen], ?_⟩
        intro later bs hmem henc
        obtain ⟨e, he, hinf⟩ := encodeCommand_infix later (Argument.ofResult k) bs hmem henc
        rw [encodeArgument_ofResult k hk] at he
        cases he
        exact hinf

/-- Witness of C10 at k = 0, i = 1, j = 258: the four encodings, and the chain of the test
"tx transfer using gas", where the result of the `SplitCoins` at position 0 is consumed by
a later `TransferObjects`, whose encoding is 01 01 02 00 00 01 01 00. -/
theorem C10_argument_encoding_witness :
    encodeArgument Argument.gasCoin = some [0] ∧
    encodeArgument (Argument.ofInput 1) = some [1, 1, 0] ∧
    encodeArgument (Argument.ofResult 0) = some [2, 0, 0] ∧
    encodeArgument (Argument.ofNestedResult 0 258) = some [3, 0, 0, 2, 1] ∧
    [2, 0, 0] <:+: [1, 1, 2, 0, 0, 1, 1, 0] :=
  have h := C10_argument_encoding 0 1 258 (by decide) (by decide) (by decide)
  ⟨h.1, h.2.1, h.2.2.1, h.2.2.2.1,
    (h.2.2.2.2 (payloadOf [] [])
      (payloadOf [] [splitCoinsCommand Argument.gasCoin [Argument.ofInput 0]])
      (splitCoinsCommand Argument.gasCoin [Argument.ofInput 0]) 0 rfl rfl).2
      (transferObjectsCommand [Argument.ofResult 0] (Argument.ofInput 1))
      [1, 1, 2, 0, 0, 1, 1, 0] (by decide) rfl⟩

/-! ## The full payload: golden vectors and the expiration field -/

/-- The modelled codec reproduces the golden vector of the test case "tx setup". -/
theorem Marshal_setupTransaction :
    (TransactionData.Marshal (setupTransaction none)).map (fun b => String.mk (base64Encode b)) =
      some ("AAAAAAAAAAAAAAAAAAAAAAAAAAAAAAAAAAAAAAAAAAAAAAACAWFiY2FiY2FiY2FiY2FiY2FiY2FiY2Fi" ++
        "Y2FiY2FiY2FiAgAAAAAAAAAgAAECAwQFBgcICQABAgMEBQYHCAkAAQIDBAUGBwgJAQIAAAAAAAAAAAAA" ++
        "AAAAAAAAAAAAAAAAAAAAAAAAAAAABgUAAAAAAAAAZAAAAAAAAAAA") := by
  rfl

theorem fromLittleEndian_littleEndian (w n : Nat) :
    fromLittleEndian (littleEndian w n) = n % 256 ^ w := by
  induction w generalizing n with
  | zero => simp [littleEndian, fromLittleEndian, Nat.mod_one]
  | succ w ih => rw [littleEndian, fromLittleEndian, ih, Nat.pow_succ', Nat.mod_mul]

theorem length_littleEndian (w n : Nat) : (littleEndian w n).length = w := by
  induction w generalizing n with
  | zero => rfl
  | succ w ih => rw [littleEndian, List.length_cons, ih]

theorem encodeUnion_single (payload : Option Bytes) :
    encodeUnion [some payload] = payload.map (fun b => 0 :: b) := by
  cases payload <;> simp [encodeUnion, populated, ULEB128Encode, uleb128Aux]

theorem encodeExpirationField_ofEpoch (e : Nat) :
    encodeExpirationField (some (TransactionExpiration.ofEpoch e)) =
      some (1 :: 1 :: littleEndian 8 e) := by
  simp [encodeExpirationField, encodeTransactionExpiration, TransactionExpiration.ofEpoch,
    encodeUnion, populated, unitCase, ULEB128Encode, uleb128Aux]

/-- The encoding of a version-1 payload is the encoding of kind, sender and gas data
followed by the encoding of the expiration field. -/
theorem encodeTransactionDataV1_eq (v1 : TransactionDataV1) (bs : Bytes)
    (h : encodeTransactionDataV1 v1 = some bs) :
    ∃ front tail, encodeExpirationField v1.Expiration = some tail ∧ bs = front ++ tail ∧
      ∀ expiration tail1, encodeExpirationField expiration = some tail1 →
        encodeTransactionDataV1 { v1 with Expiration := expiration } = some (front ++ tail1) := by
  simp only [encodeTransactionDataV1, encodeFields, Option.bind_eq_some, Option.map_eq_some']
    at h
  obtain ⟨kb, hk, r1, ⟨sb, hs, r2, ⟨gb, hg, r3, ⟨eb, he, r4, hr4, rfl⟩, rfl⟩, rfl⟩, rfl⟩ := h
  cases hr4
  obtain ⟨kind, hkind, hkb⟩ := hk
  obtain ⟨gas, hgas, hgb⟩ := hg
  refine ⟨kb ++ (sb ++ gb), eb, he, by simp, ?_⟩
  intro expiration tail1 ht
  simp [encodeTransactionDataV1, encodeFields, hkind, hkb, hs, hgas, hgb, ht]


theorem Marshal_eq (td : TransactionData) :
    td.Marshal = (td.V1.bind encodeTransactionDataV1).map (fun b => 0 :: b) := by
  obtain ⟨v1⟩ := td
  cases v1 with
  | none => simp [TransactionData.Marshal, Encoder.Encode, encodeTransactionData, encodeUnion,
      populated]
  | some v =>
    cases h : encodeTransactionDataV1 v <;>
      simp [TransactionData.Marshal, Encoder.Encode, encodeTransactionData,
        encodeUnion_single, h]

theorem encodeElems_total {α : Type} (enc : α → Option Bytes) (xs : List α)
    (h : ∀ x, ∃ b, enc x = some b) : ∃ b, encodeElems enc xs = some b := by
  induction xs with
  | nil => exact ⟨[], rfl⟩
  | cons x xs ih =>
    obtain ⟨a, ha⟩ := h x
    obtain ⟨b, hb⟩ := ih
    exact ⟨a ++ b, by simp [encodeElems, ha, hb]⟩

theorem encodeGasData_of_IsAllSet (gd : GasData) (h : gd.IsAllSet = true) :
    ∃ b, encodeGasData gd = some b := by
  obtain ⟨payment, owner, price, budget⟩ := gd
  cases payment <;> cases owner <;> cases price <;> cases budget <;>
    simp [GasData.IsAllSet] at h
  rename_i refs o p b
  obtain ⟨elems, helems⟩ := encodeElems_total encodeSuiObjectRef refs (fun r => ⟨_, rfl⟩)
  refine ⟨ULEB128Encode refs.length ++ (elems ++ (o ++ (littleEndian 8 p ++ littleEndian 8 b))),
    ?_⟩
  simp [encodeGasData, encodeFields, encodeSeq, helems]

/-! ## The claims, continued -/

/-- C11 (the code departs from it): the cases of the TypeTag union are declared in the
order Bool, U8, U128, U256, Address, Signer, Vector, Struct, U16, U32, U64, so the scalar
tag of each case encodes as its declaration position; that position equals the index in
the cited Move enum for every case except U64 (declared 10, Move 2), U128 (declared 2,
Move 3) and U256 (declared 3, Move 10), and `TypeTag{U64: &true}` encodes as the byte 0a. -/
theorem C11_TypeTag_declaration_order :
    TypeTag.declaredIndex .U64 = 10 ∧ moveTypeTagIndex .U64 = 2 ∧
    TypeTag.declaredIndex .U128 = 2 ∧ moveTypeTagIndex .U128 = 3 ∧
    TypeTag.declaredIndex .U256 = 3 ∧ moveTypeTagIndex .U256 = 10 ∧
    encodeTypeTag (scalarTypeTag .U64) = some [10] ∧
    encodeTypeTag (scalarTypeTag .U128) = some [2] ∧
    encodeTypeTag (scalarTypeTag .U256) = some [3] ∧
    (∀ c : TypeTagCase, c ≠ .Vector → c ≠ .Struct →
      encodeTypeTag (scalarTypeTag c) = some [TypeTag.declaredIndex c]) ∧
    (∀ c : TypeTagCase, TypeTag.declaredIndex c = moveTypeTagIndex c ↔
      (c ≠ .U64 ∧ c ≠ .U128 ∧ c ≠ .U256)) := by
  refine ⟨by decide, rfl, by decide, rfl, by decide, rfl, by decide, by decide, by decide,
    ?_, ?_⟩
  · intro c hv hs
    cases c <;> first | decide | exact absurd rfl hv | exact absurd rfl hs
  · intro c
    cases c <;> decide

/-- For every fully populated payload with no expiration set (kind that encodes, sender,
gas data with all four fields) and every 64-bit epoch e, the payload encodes to some bytes
ending in 00, and the same payload with Expiration = Epoch(e) encodes to those bytes with
the final 00 replaced by the presence byte 01, the variant index 01 of Epoch and e as 8
little-endian bytes. -/
theorem Marshal_withExpiration_ofEpoch (td : TransactionData) (v1 : TransactionDataV1)
    (kind : TransactionKind) (kindBytes sender : Bytes) (gd : GasData) (e : Nat)
    (hv : td.V1 = some v1) (hkind : v1.Kind = some kind)
    (hkb : encodeTransactionKind kind = some kindBytes) (hsender : v1.Sender = some sender)
    (hgd : v1.GasData = some gd) (hset : gd.IsAllSet = true) (hnone : v1.Expiration = none)
    (he : e < 2 ^ 64) :
    ∃ front : Bytes,
      td.Marshal = some (front ++ [0]) ∧
      (td.withExpiration (some (TransactionExpiration.ofEpoch e))).Marshal =
        some (front ++ 1 :: 1 :: littleEndian 8 e) ∧
      (littleEndian 8 e).length = 8 ∧ fromLittleEndian (littleEndian 8 e) = e := by
  obtain ⟨gb, hgb⟩ := encodeGasData_of_IsAllSet gd hset
  have hbase : encodeTransactionDataV1 v1 = some ((kindBytes ++ (sender ++ gb)) ++ [0]) := by
    simp [encodeTransactionDataV1, encodeFields, hkind, hkb, hsender, hgd, hgb, hnone,
      encodeExpirationField]
  obtain ⟨front, tail, htail, hsplit, hset1⟩ := encodeTransactionDataV1_eq v1 _ hbase
  rw [hnone] at htail
  cases htail
  have hfront : front = kindBytes ++ (sender ++ gb) := List.append_cancel_right hsplit.symm
  refine ⟨0 :: front, ?_, ?_, length_littleEndian 8 e, ?_⟩
  · rw [Marshal_eq, hv, hfront]
    simp [hbase]
  · rw [Marshal_eq]
    simp [TransactionData.withExpiration, hv,
      hset1 _ _ (encodeExpirationField_ofEpoch e)]
  · rw [fromLittleEndian_littleEndian]
    exact Nat.mod_eq_of_lt he

/-- C12 (the encoder of the spec departs from it): on the payload of the tests, the
encoding without expiration is some bytes followed by 00; with Expiration = Epoch(100) the
encoder that follows the spec's rule for an optional field writes those bytes followed by
the ten bytes 01 01 64 00 00 00 00 00 00 00, whereas the claim's form, the same bytes
followed by the nine bytes 01 64 00 00 00 00 00 00 00, is the golden vector of the test
"tx with expiration". -/
theorem C12_expiration_encoding_diverges :
    ∃ front : Bytes,
      (setupTransaction none).Marshal = some (front ++ [0]) ∧
      (setupTransaction (some (TransactionExpiration.ofEpoch 100))).Marshal =
        some (front ++ [1, 1, 100, 0, 0, 0, 0, 0, 0, 0]) ∧
      String.mk (base64Encode (front ++ [1, 100, 0, 0, 0, 0, 0, 0, 0])) =
        "AAAAAAAAAAAAAAAAAAAAAAAAAAAAAAAAAAAAAAAAAAAAAAACAWFiY2FiY2FiY2FiY2FiY2FiY2FiY2Fi" ++
        "Y2FiY2FiY2FiAgAAAAAAAAAgAAECAwQFBgcICQABAgMEBQYHCAkAAQIDBAUGBwgJAQIAAAAAAAAAAAAA" ++
        "AAAAAAAAAAAAAAAAAAAAAAAAAAAABgUAAAAAAAAAZAAAAAAAAAABZAAAAAAAAAA=" := by
  refine ⟨[0, 0, 0, 0] ++ (List.replicate 31 0 ++ [2]) ++ [1] ++ generateObjectRef.ObjectId ++
      littleEndian 8 2 ++ [32] ++ generateObjectRef.Digest ++ (List.replicate 31 0 ++ [6]) ++
      littleEndian 8 5 ++ littleEndian 8 100, ?_, ?_, ?_⟩
  · rfl
  · rfl
  · rfl

/-- C13 (as amended): AddInput completes and returns an Argument for every CallArg exactly
on the payloads whose Kind is a ProgrammableTransaction; on every other payload (Kind nil,
or a Kind with no ProgrammableTransaction) it stops with a nil-pointer dereference. -/
theorem C13_AddInput_completes (td : TransactionDataV1) (x : CallArg) :
    ((∃ kind pt, td.Kind = some kind ∧ kind.ProgrammableTransaction = some pt) →
      ∃ (td1 : TransactionDataV1) (a : Argument), AddInput td x = Except.ok (td1, a)) ∧
    ((¬ ∃ kind pt, td.Kind = some kind ∧ kind.ProgrammableTransaction = some pt) →
      AddInput td x = Except.error GoPanic.nilPointerDereference) := by
  constructor
  · rintro ⟨kind, pt, hk, hp⟩
    exact ⟨_, _, AddInput_ok td kind pt x hk hp⟩
  · intro h
    cases hk : td.Kind with
    | none => simp [AddInput, hk]
    | some kind =>
      cases hp : kind.ProgrammableTransaction with
      | none => simp [AddInput, hk, hp]
      | some pt => exact absurd ⟨kind, pt, hk, hp⟩ h

/-- Witness of C13: AddInput completes on an empty programmable payload. -/
theorem C13_AddInput_completes_witness :
    ∃ (td1 : TransactionDataV1) (a : Argument),
      AddInput (payloadOf [] []) (pureInput [1]) = Except.ok (td1, a) :=
  (C13_AddInput_completes (payloadOf [] []) (pureInput [1])).1 ⟨_, _, rfl, rfl⟩

/-- Counterexample to C13 as stated: on a payload whose Kind is nil, and on a payload whose
Kind is a ChangeEpoch, AddInput does not return an Argument but stops with a nil-pointer
dereference. -/
theorem C13_counterexample :
    AddInput { Kind := none, Sender := none, GasData := none, Expiration := none }
        (pureInput [1]) = Except.error GoPanic.nilPointerDereference ∧
    AddInput
        { Kind := some
            { ProgrammableTransaction := none, ChangeEpoch := some (), Genesis := none,
              ConsensusCommitPrologue := none },
          Sender := none, GasData := none, Expiration := none }
        (pureInput [1]) = Except.error GoPanic.nilPointerDereference :=
  ⟨rfl, rfl⟩

/-- C14 (as amended): when the address string cannot be converted to fixed-width bytes,
GetInputObjectIndex returns none to its caller, whatever the payload holds; this is the
same value as the normal negative result "no input matches", so the failure is not
propagated. -/
theorem C14_conversion_failure_returns_none
    (convert : SuiAddress → Option SuiAddressBytes) (td : TransactionDataV1)
    (address : SuiAddress) (h : convert address = none) :
    GetInputObjectIndex convert td address = Except.ok none := by
  simp [GetInputObjectIndex, h]

/-- Witness of C14: with a converter that rejects every string, the lookup returns none on
a payload that holds an object input. -/
theorem C14_conversion_failure_returns_none_witness :
    GetInputObjectIndex (fun _ => none) (payloadOf [ownedObjectInput [7]] []) "0xzz" =
      Except.ok none :=
  C14_conversion_failure_returns_none (fun _ => none) (payloadOf [ownedObjectInput [7]] [])
    "0xzz" rfl

/-- Counterexample to C14 as stated: with a converter that accepts only "0x8", the lookup
of the malformed address "0xzz" and the lookup of the well-formed address "0x8", which no
input references, return the same value, none. -/
theorem C14_counterexample :
    (fun s : SuiAddress => if s = "0x8" then some [8] else none) "0xzz" = none ∧
    (fun s : SuiAddress => if s = "0x8" then some [8] else none) "0x8" = some [8] ∧
    GetInputObjectIndex (fun s => if s = "0x8" then some [8] else none)
        (payloadOf [ownedObjectInput [7]] []) "0xzz" = Except.ok none ∧
    GetInputObjectIndex (fun s => if s = "0x8" then some [8] else none)
        (payloadOf [ownedObjectInput [7]] []) "0x8" = Except.ok none := by
  refine ⟨by decide, by decide, ?_, ?_⟩
  · have h : (fun s : SuiAddress => if s = "0x8" then some [8] else none) "0xzz" = none := by
      decide
    simp [GetInputObjectIndex, h]
  · rw [GetInputObjectIndex_payloadOf _ _ _ _ [8] (by decide)]
    rfl

theorem chained_references (ops : List Op) :
    ∀ m, chained m ops = true → ∀ (n : Nat) (c : Command),
      (addedCommands ops)[n]? = some c → ∀ k ∈ c.references, k < m + n := by
  induction ops with
  | nil =>
    intro m _ n c hc
    simp [addedCommands] at hc
  | cons op ops ih =>
    intro m hch n c hc k hk
    cases op with
    | addInput x =>
      simp only [chained, addedCommands] at hch hc
      exact ih m hch n c hc k hk
    | getInputObjectIndex address =>
      simp only [chained, addedCommands] at hch hc
      exact ih m hch n c hc k hk
    | addCommand c0 =>
      simp only [chained, addedCommands, Bool.and_eq_true, List.all_eq_true,
        decide_eq_true_eq] at hch hc
      cases n with
      | zero =>
        simp only [List.getElem?_cons_zero, Option.some.injEq] at hc
        subst hc
        exact Nat.lt_of_lt_of_le (hch.1 k hk) (Nat.le_add_right m 0)
      | succ n =>
        simp only [List.getElem?_cons_succ] at hc
        have := ih (m + 1) hch.2 n c hc k hk
        omega

/-- C16 (as amended): AddCommand stores any command, whatever positions its arguments name.
In every builder state reached from an empty ProgrammableTransaction through AddInput and
AddCommand calls (and lookups) in which every added command refers only to commands
present when it is added, each Result(k) or NestedResult(k, _) argument contained in the
command at position n has k < n, hence k <= n. -/
theorem C16_commands_refer_backwards (convert : SuiAddress → Option SuiAddressBytes)
    (td : TransactionDataV1) (kind : TransactionKind) (hk : td.Kind = some kind)
    (hp : kind.ProgrammableTransaction = some { Inputs := [], Commands := [] })
    (ops : List Op) (hch : chained 0 ops = true) :
    ∃ (td1 : TransactionDataV1) (rets : List Ret),
      run convert td ops = Except.ok (td1, rets) ∧
      ∀ (n : Nat) (c : Command), td1.commands[n]? = some c →
        ∀ k ∈ c.references, k < n := by
  obtain ⟨td1, rets, kind1, pt1, hrun, hk1, hp1, _, hcmd, _⟩ :=
    run_ok convert ops td kind _ hk hp
  refine ⟨td1, rets, hrun, ?_⟩
  intro n c hc k hkmem
  rw [commands_of_kind td1 kind1 pt1 hk1 hp1, hcmd, List.nil_append] at hc
  have := chained_references ops 0 hch n c hc k hkmem
  omega

/-- Witness of C16: the chain of the test "tx transfer using gas", a `SplitCoins` at
position 0 and a `TransferObjects` at position 1 that consumes `Result(0)`. -/
theorem C16_commands_refer_backwards_witness :
    ∃ (td1 : TransactionDataV1) (rets : List Ret),
      run (fun _ => none) (payloadOf [] [])
        [Op.addInput (pureInput [1]),
          Op.addCommand (splitCoinsCommand Argument.gasCoin [Argument.ofInput 0]),
          Op.addCommand (transferObjectsCommand [Argument.ofResult 0] (Argument.ofInput 1))]
        = Except.ok (td1, rets) ∧
      ∀ (n : Nat) (c : Command), td1.commands[n]? = some c →
        ∀ k ∈ c.references, k < n :=
  C16_commands_refer_backwards (fun _ => none) (payloadOf [] []) _ rfl rfl
    [Op.addInput (pureInput [1]),
      Op.addCommand (splitCoinsCommand Argument.gasCoin [Argument.ofInput 0]),
      Op.addCommand (transferObjectsCommand [Argument.ofResult 0] (Argument.ofInput 1))]
    (by decide)

/-- Counterexample to C16 as stated: one AddCommand call on an empty builder with a
`SplitCoins` of `Result(5)` leaves at position 0 a command that refers to position 5. -/
theorem C16_counterexample :
    run (fun _ => none) (payloadOf [] [])
        [Op.addCommand (splitCoinsCommand (Argument.ofResult 5) [])] =
      Except.ok (payloadOf [] [splitCoinsCommand (Argument.ofResult 5) []], [Ret.index 0]) ∧
    (payloadOf [] [splitCoinsCommand (Argument.ofResult 5) []]).commands[0]? =
      some (splitCoinsCommand (Argument.ofResult 5) []) ∧
    5 ∈ (splitCoinsCommand (Argument.ofResult 5) []).references ∧ ¬ (5 ≤ 0) := by
  refine ⟨rfl, rfl, by decide, by decide⟩

/-- C17: for every builder state (a payload whose Kind is a ProgrammableTransaction), the
index returned by AddInput (inside Argument.Input) and the index returned by AddCommand
equal the pre-append length of Inputs (respectively Commands) reduced modulo 2^16; the
element just appended sits at the position of the pre-append length, and the returned
index equals that length, and so addresses the element just appended, exactly when the
length is below 65536. -/
theorem C17_returned_index_mod (td : TransactionDataV1) (kind : TransactionKind)
    (pt : ProgrammableTransaction) (x : CallArg) (c : Command) (hk : td.Kind = some kind)
    (hp : kind.ProgrammableTransaction = some pt) :
    (∃ td1 : TransactionDataV1,
      AddInput td x = Except.ok (td1, Argument.ofInput (pt.Inputs.length % 2 ^ 16)) ∧
      td1.inputs = pt.Inputs ++ [x] ∧ td1.inputs[pt.Inputs.length]? = some x ∧
      (pt.Inputs.length < 2 ^ 16 → td1.inputs[pt.Inputs.length % 2 ^ 16]? = some x)) ∧
    (∃ td1 : TransactionDataV1,
      AddCommand td c = Except.ok (td1, pt.Commands.length % 2 ^ 16) ∧
      td1.commands = pt.Commands ++ [c] ∧ td1.commands[pt.Commands.length]? = some c ∧
      (pt.Commands.length < 2 ^ 16 → td1.commands[pt.Commands.length % 2 ^ 16]? = some c)) ∧
    (pt.Inputs.length % 2 ^ 16 = pt.Inputs.length ↔ pt.Inputs.length < 2 ^ 16) ∧
    (pt.Commands.length % 2 ^ 16 = pt.Commands.length ↔ pt.Commands.length < 2 ^ 16) := by
  refine ⟨⟨withProgrammable td kind { pt with Inputs := pt.Inputs ++ [x] }, ?_, ?_, ?_, ?_⟩,
    ⟨withProgrammable td kind { pt with Commands := pt.Commands ++ [c] }, ?_, ?_, ?_, ?_⟩,
    ?_, ?_⟩
  · rw [AddInput_ok td kind pt x hk hp]
    rfl
  · simp
  · simp
  · intro h
    rw [Nat.mod_eq_of_lt h]
    simp
  · rw [AddCommand_ok td kind pt c hk hp]
    rfl
  · simp
  · simp
  · intro h
    rw [Nat.mod_eq_of_lt h]
    simp
  · constructor
    · intro h
      rw [← h]
      exact Nat.mod_lt _ (by decide)
    · exact Nat.mod_eq_of_lt
  · constructor
    · intro h
      rw [← h]
      exact Nat.mod_lt _ (by decide)
    · exact Nat.mod_eq_of_lt

/-- Witness of C17 on a payload with two inputs and one command. -/
theorem C17_returned_index_mod_witness :
    (∃ td1 : TransactionDataV1,
      AddInput (payloadOf [pureInput [1], pureInput [2]] [splitCoinsCommand Argument.gasCoin []])
          (pureInput [3]) = Except.ok (td1, Argument.ofInput 2) ∧
      td1.inputs[2]? = some (pureInput [3])) ∧
    (∃ td1 : TransactionDataV1,
      AddCommand (payloadOf [pureInput [1], pureInput [2]] [splitCoinsCommand Argument.gasCoin []])
          (mergeCoinsCommand Argument.gasCoin []) = Except.ok (td1, 1) ∧
      td1.commands[1]? = some (mergeCoinsCommand Argument.gasCoin [])) :=
  have h := C17_returned_index_mod
    (payloadOf [pureInput [1], pureInput [2]] [splitCoinsCommand Argument.gasCoin []]) _ _
    (pureInput [3]) (mergeCoinsCommand Argument.gasCoin []) rfl rfl
  ⟨h.1.imp (fun _ h1 => ⟨h1.1, h1.2.2.1⟩), h.2.1.imp (fun _ h1 => ⟨h1.1, h1.2.2.1⟩)⟩

/-- C18: lookup finds what was added. For every builder state with fewer than 65536 inputs,
if x is an Object CallArg whose populated sub-case (ImmOrOwnedObject, SharedObject or
Receiving) has object id a, and the address string s converts to a, then AddInput(x)
returns Input(i) with i the old length, and afterwards GetInputObjectIndex(s) returns an
index j with j <= i whose input is an Object referencing a, and j = i when no earlier
input references a. -/
theorem C18_lookup_finds_added (convert : SuiAddress → Option SuiAddressBytes)
    (td : TransactionDataV1) (kind : TransactionKind) (pt : ProgrammableTransaction)
    (x : CallArg) (s : SuiAddress) (a : SuiAddressBytes) (hk : td.Kind = some kind)
    (hp : kind.ProgrammableTransaction = some pt) (hlen : pt.Inputs.length < 2 ^ 16)
    (hx : referencesObject a x = true) (hs : convert s = some a) :
    ∃ (td1 : TransactionDataV1) (i j : Nat),
      AddInput td x = Except.ok (td1, Argument.ofInput i) ∧ i = pt.Inputs.length ∧
      GetInputObjectIndex convert td1 s = Except.ok (some j) ∧ j ≤ i ∧
      (∃ c, td1.inputs[j]? = some c ∧ referencesObject a c = true) ∧
      ((∀ c ∈ pt.Inputs, referencesObject a c = false) → j = i) := by
  obtain ⟨before, c, after, hsplit, hc, hbefore, hscan⟩ :=
    scanInputs_first a (pt.Inputs ++ [x]) ⟨x, by simp, hx⟩
  have hlens : pt.Inputs.length + 1 = before.length + (after.length + 1) := by
    have := congrArg List.length hsplit
    simpa using this
  have hle : before.length ≤ pt.Inputs.length := by omega
  have hget : (pt.Inputs ++ [x])[before.length]? = some c := by
    rw [hsplit, List.getElem?_append_right (Nat.le_refl _), Nat.sub_self]
    simp
  refine ⟨withProgrammable td kind { pt with Inputs := pt.Inputs ++ [x] }, pt.Inputs.length,
    before.length, ?_, rfl, ?_, hle, ⟨c, ?_, hc⟩, ?_⟩
  · rw [AddInput_ok td kind pt x hk hp, uint16_of_lt hlen]
  · rw [GetInputObjectIndex_ok convert _ _ { pt with Inputs := pt.Inputs ++ [x] } s a rfl rfl hs]
    show Except.ok (scanInputs a (pt.Inputs ++ [x]) 0) = _
    rw [hscan, uint16_of_lt (by omega)]
  · rw [withProgrammable_inputs]
    exact hget
  · intro hnone
    by_contra hne
    have hlt : before.length < pt.Inputs.length := by omega
    rw [List.getElem?_append_left hlt] at hget
    have := hnone c (List.getElem?_mem hget)
    rw [hc] at this
    cases this

/-- Witness of C18: after a shared-object input for object 7 is added behind a pure input,
the lookup of its address returns its index 1. -/
theorem C18_lookup_finds_added_witness :
    ∃ (td1 : TransactionDataV1) (i j : Nat),
      AddInput (payloadOf [pureInput [7]] []) (sharedObjectInput [7]) =
        Except.ok (td1, Argument.ofInput i) ∧ i = [pureInput [7]].length ∧
      GetInputObjectIndex (fun _ => some [7]) td1 "0x7" = Except.ok (some j) ∧ j ≤ i ∧
      (∃ c, td1.inputs[j]? = some c ∧ referencesObject [7] c = true) ∧
      ((∀ c ∈ [pureInput [7]], referencesObject [7] c = false) → j = i) :=
  C18_lookup_finds_added (fun _ => some [7]) (payloadOf [pureInput [7]] []) _ _
    (sharedObjectInput [7]) "0x7" [7] rfl rfl (by decide) (by decide) rfl

/-- C19: frame. AddInput changes only Inputs (Commands, Sender, GasData and Expiration are
unchanged), AddCommand changes only Commands (Inputs, Sender, GasData and Expiration are
unchanged), and GetInputObjectIndex changes nothing in the builder payload, whatever it
returns. -/
theorem C19_frame (convert : SuiAddress → Option SuiAddressBytes) (td : TransactionDataV1) :
    (∀ (x : CallArg) (td1 : TransactionDataV1) (a : Argument),
      AddInput td x = Except.ok (td1, a) →
      td1.commands = td.commands ∧ td1.Sender = td.Sender ∧ td1.GasData = td.GasData ∧
      td1.Expiration = td.Expiration) ∧
    (∀ (c : Command) (td1 : TransactionDataV1) (i : Nat),
      AddCommand td c = Except.ok (td1, i) →
      td1.inputs = td.inputs ∧ td1.Sender = td.Sender ∧ td1.GasData = td.GasData ∧
      td1.Expiration = td.Expiration) ∧
    (∀ (address : SuiAddress) (td1 : TransactionDataV1) (r : Ret),
      step convert td (Op.getInputObjectIndex address) = Except.ok (td1, r) → td1 = td) := by
  refine ⟨?_, ?_, ?_⟩
  · intro x td1 a h
    cases hk : td.Kind with
    | none => simp [AddInput, hk] at h
    | some kind =>
      cases hp : kind.ProgrammableTransaction with
      | none => simp [AddInput, hk, hp] at h
      | some pt =>
        rw [AddInput_ok td kind pt x hk hp] at h
        cases h
        exact ⟨by rw [withProgrammable_commands, commands_of_kind td kind pt hk hp], rfl, rfl,
          rfl⟩
  · intro c td1 i h
    cases hk : td.Kind with
    | none => simp [AddCommand, hk] at h
    | some kind =>
      cases hp : kind.ProgrammableTransaction with
      | none => simp [AddCommand, hk, hp] at h
      | some pt =>
        rw [AddCommand_ok td kind pt c hk hp] at h
        cases h
        exact ⟨by rw [withProgrammable_inputs, inputs_of_kind td kind pt hk hp], rfl, rfl,
          rfl⟩
  · intro address td1 r h
    cases hg : GetInputObjectIndex convert td address with
    | error e => simp [step, hg] at h
    | ok res =>
      simp only [step, hg, Except.ok.injEq, Prod.mk.injEq] at h
      exact h.1.symm

/-- Witness of C19: on a payload with a sender set, AddInput, AddCommand and a lookup
return, and the sender is the same afterwards. -/
theorem C19_frame_witness :
    (∃ (td1 : TransactionDataV1) (a : Argument),
      AddInput { payloadOf [ownedObjectInput [7]] [] with Sender := some [2] } (pureInput [1]) =
        Except.ok (td1, a) ∧ td1.Sender = some [2] ∧ td1.commands = []) ∧
    (∃ (td1 : TransactionDataV1) (r : Ret),
      step (fun _ => some [7]) { payloadOf [ownedObjectInput [7]] [] with Sender := some [2] }
        (Op.getInputObjectIndex "0x7") = Except.ok (td1, r) ∧
      td1 = { payloadOf [ownedObjectInput [7]] [] with Sender := some [2] }) := by
  have h := C19_frame (fun _ => some [7])
    { payloadOf [ownedObjectInput [7]] [] with Sender := some [2] }
  refine ⟨⟨_, _, rfl, ?_, ?_⟩, ⟨_, _, rfl, ?_⟩⟩
  · exact (h.1 (pureInput [1]) _ _ rfl).2.1
  · exact (h.1 (pureInput [1]) _ _ rfl).1
  · exact h.2.2 "0x7" _ _ rfl

end transaction
